import Mathlib

/-!
# Multipart upload load harness (`multipart_mas.go`, `multipart_mas copy.go`)

A shallow embedding of the multipart-upload driver of the two Go programs and of the
helpers around it (`randomString` / `randSuffix`, `explainS3Error`, `uploadOneFile`),
followed by theorems about them.

The object store, the file system and the random source are external collaborators.
They are modelled as a record of operations `World σ` over an arbitrary world state `σ`
that is threaded through every call, so a theorem quantified over `World σ` speaks about
every possible behaviour of the store and of the reader (failures and short reads
included).  Every file and store interaction is also recorded, in order, in a trace of
`Event`s, so that statements such as "no complete call is issued" can be made.  Two
concrete worlds are used for scenarios: `fileWorld`, a regular file that is read with full
reads, and `scripted`, which plays a list of prepared results.

The `for` loops have no bound in the source; the model gives them a budget `fuel` and
reports `Outcome.unfinished` when it runs out.

Integers: `int` is taken to have 64 bits.  The part number handed to the store is an
`int32` (`aws.Int32(int32(partNumber))`), which is modelled with its wrap-around; the loop
counter `partNumber` itself is an unbounded integer in the model.

Not modelled: log lines (`mainLog`, `errorLog`, `logS3Error`), the deferred `f.Close()`,
and `totalParts`, a floating point value that is only logged and used as a capacity hint
for `completedParts`.  `f.Stat()` and `rand.Int` are taken to succeed, a
`CreateMultipartUpload` response without error carries an upload id and an `UploadPart`
response without error carries an entity tag.
-/

namespace Skripts

/-! ## Go values -/

abbrev Byte := UInt8

/-- Go `error` values that the programs can observe. `EOF` is the sentinel `io.EOF`;
`wrapped message inner` is `fmt.Errorf(message + "%w", inner)`. -/
inductive GoError where
  | EOF
  | api (code message : String)
  | other (message : String)
  | wrapped (message : String) (inner : GoError)
  deriving DecidableEq, Repr

/-- Conversion `int32(n)`: two's complement truncation to 32 bits. -/
def int32 (n : Int) : Int := (n + 2147483648) % 4294967296 - 2147483648

/-- Conversion `int64(n)`: two's complement truncation to 64 bits. -/
def int64 (n : Int) : Int := (n + 9223372036854775808) % 18446744073709551616 - 9223372036854775808

/-- The verb `%d` of `fmt.Sprintf` on an `int`. -/
def formatD (i : Int) : String :=
  if i < 0 then "-" ++ Nat.repr i.natAbs else Nat.repr i.toNat

/-- Element type `types.CompletedPart`. -/
structure CompletedPart where
  ETag : String
  PartNumber : Int
  deriving DecidableEq, Repr

/-! ## The world: file, store and random source -/

deriving instance DecidableEq for Except

/-- One interaction of the program with the outside world, with its result. -/
inductive Event where
  | Open (filePath : String) (err : Option GoError)
  | Read (n : Nat) (err : Option GoError)
  | CreateMultipartUpload (bucket key : String) (res : Except GoError String)
  | UploadPart (bucket key : String) (partNumber : Int) (uploadId : String)
      (body : List Byte) (res : Except GoError String)
  | CompleteMultipartUpload (bucket key uploadId : String) (parts : List CompletedPart)
      (err : Option GoError)
  | AbortMultipartUpload (bucket key uploadId : String) (err : Option GoError)
  | DeleteObject (bucket key : String) (err : Option GoError)
  deriving DecidableEq

/-- The operations the programs call on the outside world, as state transformers.
`Read w len` is `f.Read(buf)` with `len = len(buf)`: it yields the bytes stored at the
front of `buf` and the error.  `RandInt` is `rand.Int(rand.Reader, 36)`. -/
structure World (σ : Type) where
  Open : σ → String → Option GoError × σ
  Read : σ → Nat → (List Byte × Option GoError) × σ
  CreateMultipartUpload : σ → String → String → Except GoError String × σ
  UploadPart : σ → String → String → Int → String → List Byte → Except GoError String × σ
  CompleteMultipartUpload : σ → String → String → String → List CompletedPart → Option GoError × σ
  AbortMultipartUpload : σ → String → String → String → Option GoError × σ
  DeleteObject : σ → String → String → Option GoError × σ
  RandInt : σ → Fin 36 × σ

/-- A regular file with the unread bytes `w`, and a store that fails on no call except
possibly `UploadPart`: `Read` stores `min(len(buf), remaining)` bytes and reports `io.EOF`
(with `n = 0`) once nothing remains, as `os.File.Read` does; `UploadPart` answers
`respond partNumber body`. -/
def fileWorld (uploadId : String) (respond : Int → List Byte → Except GoError String) :
    World (List Byte) where
  Open w _ := (none, w)
  Read w len :=
    ((w.take len, if w.take len = [] ∧ 0 < len then some GoError.EOF else none), w.drop len)
  CreateMultipartUpload w _ _ := (.ok uploadId, w)
  UploadPart w _ _ partNumber _ body := (respond partNumber body, w)
  CompleteMultipartUpload w _ _ _ _ := (none, w)
  AbortMultipartUpload w _ _ _ := (none, w)
  DeleteObject w _ _ := (none, w)
  RandInt w := (0, w)

/-- A store response that accepts every part, with the entity tag `etag partNumber body`. -/
def accept (etag : Int → List Byte → String) : Int → List Byte → Except GoError String :=
  fun partNumber body => .ok (etag partNumber body)

/-- A scripted world: the results of the successive `Read` and `UploadPart` calls are
listed in advance (past the end of the lists a read reports end of input and an upload
succeeds), the other calls have one fixed result each. -/
structure Script where
  openErr : Option GoError
  reads : List (List Byte × Option GoError)
  create : Except GoError String
  uploads : List (Except GoError String)
  complete : Option GoError
  abort : Option GoError
  delete : Option GoError
  rand : List (Fin 36)

/-- The world that plays a `Script`. -/
def scripted : World Script where
  Open w _ := (w.openErr, w)
  Read w _ := (w.reads.headD ([], some GoError.EOF), { w with reads := w.reads.tail })
  CreateMultipartUpload w _ _ := (w.create, w)
  UploadPart w _ _ _ _ _ := (w.uploads.headD (.ok "etag"), { w with uploads := w.uploads.tail })
  CompleteMultipartUpload w _ _ _ _ := (w.complete, w)
  AbortMultipartUpload w _ _ _ := (w.abort, w)
  DeleteObject w _ _ := (w.delete, w)
  RandInt w := (w.rand.headD 0, { w with rand := w.rand.tail })

/-- How a modelled function call ends. `unfinished` is the model running out of loop
budget; `panicked` is a Go run-time panic. -/
inductive Outcome where
  | returned (err : Option GoError)
  | panicked
  | unfinished
  deriving DecidableEq

/-- The result of running a function: how it ended, what it did, and the world after. -/
structure Run (σ : Type) where
  outcome : Outcome
  trace : List Event
  world : σ

/-- The result of `f.Read(buf)`. -/
structure ReadResult (σ : Type) where
  n : Nat
  err : Option GoError
  buf : List Byte
  world : σ

/-- Call `f.Read(buf)`: at most `len(buf)` bytes are stored at the front of `buf`, the
rest of `buf` keeps its old content. -/
def readInto {σ : Type} (env : World σ) (w : σ) (buf : List Byte) : ReadResult σ :=
  let r := env.Read w buf.length
  let data := r.1.1.take buf.length
  { n := data.length, err := r.1.2, buf := data ++ buf.drop data.length, world := r.2 }

/-- How the read loop of `multipartUpload` ends. -/
inductive LoopExit where
  | brk (completedParts : List CompletedPart)
  | ret (err : GoError)
  | unfinished
  deriving DecidableEq

/-- The result of running the read loop. -/
structure LoopRun (σ : Type) where
  exit : LoopExit
  trace : List Event
  world : σ

/-- The largest number of bytes that one `make` allocates: `maxAlloc` of the Go run time,
`2^48` on 64-bit Linux.  Memory itself is not bounded in the model. -/
def maxAlloc : Int := 281474976710656

/-- The allocation `make([]byte, partSize)`, which panics on a negative length and on a
length above `maxAlloc` (`makeslice: len out of range`). -/
def makeBuf (partSize : Int) : Option (List Byte) :=
  if partSize < 0 ∨ maxAlloc < partSize then none else some (List.replicate partSize.toNat 0)

/-- The allocation `make([]types.CompletedPart, 0, totalParts)` of `multipart_mas.go`
(line 135), where `totalParts` is `int(math.Ceil(float64(totalSize) / float64(partSize)))`.
With `partSize = 0` the quotient is `+Inf` or `NaN`, whose conversion to `int` is the least
`int64` on amd64: the capacity is negative and `make` panics.  With `partSize > 0` the
capacity is a count that is not negative, and the empty slice is allocated (a part size
is a multiple of `2^20`, so the capacity is within `maxAlloc` for every file below `2^62`
bytes).  With `partSize < 0` either this allocation or the next one, `makeBuf`, panics,
before any other call: the model lets `makeBuf` do it. -/
def makeCompletedParts (partSize : Int) : Option (List CompletedPart) :=
  if partSize = 0 then none else some []

/-- The statements of `multipartUpload` after the loop: `CompleteMultipartUpload` and
the final `return`. -/
def completeUpload {σ : Type} (env : World σ) (bucket key uploadID : String)
    (completedParts : List CompletedPart) (w : σ) : Run σ :=
  let r := env.CompleteMultipartUpload w bucket key uploadID completedParts
  { outcome := .returned r.1
    trace := [.CompleteMultipartUpload bucket key uploadID completedParts r.1]
    world := r.2 }

/-- The test `err != nil && err != io.EOF` on the error of a read: the error when the
test holds, nothing when it does not. -/
def notNilNotEOF : Option GoError → Option GoError
  | some .EOF => none
  | some err => some err
  | none => none

/-- The alphabet `letters` of `randomString` and `randSuffix`. -/
def letters : List Char := "abcdefghijklmnopqrstuvwxyz0123456789".toList

/-- The byte `letters[num.Int64()]` for a random number below `len(letters)`. -/
def letterAt (num : Fin 36) : Char := letters.get (num.cast (by decide))

/-- The format `"test-bigfile-%d-%d-%s.bin"` of `uploadOneFile`. -/
def objectKey (iteration idx : Int) (suffix : String) : String :=
  "test-bigfile-" ++ formatD iteration ++ "-" ++ formatD idx ++ "-" ++ suffix ++ ".bin"

/-! ## `multipart_mas.go` -/

namespace MultipartMas

/-- The `for` loop of `multipartUpload` (lines 139-169), with a budget on iterations. -/
def uploadLoop {σ : Type} (env : World σ) (bucket key uploadID : String) :
    Nat → σ → List Byte → Int → List CompletedPart → LoopRun σ
  | 0, w, _, _, _ => { exit := .unfinished, trace := [], world := w }
  | fuel + 1, w, buf, partNumber, completedParts =>
    let rd := readInto env w buf
    match notNilNotEOF rd.err with
    | some err => { exit := .ret err, trace := [.Read rd.n rd.err], world := rd.world }
    | none =>
      if rd.n = 0 then
        { exit := .brk completedParts, trace := [.Read rd.n rd.err], world := rd.world }
      else
        let body := rd.buf.take rd.n
        let up := env.UploadPart rd.world bucket key (int32 partNumber) uploadID body
        match up.1 with
        | .error err =>
          let ab := env.AbortMultipartUpload up.2 bucket key uploadID
          { exit := .ret (.wrapped ("ошибка загрузки части " ++ formatD partNumber ++ ": ") err)
            trace := [.Read rd.n rd.err,
                      .UploadPart bucket key (int32 partNumber) uploadID body up.1,
                      .AbortMultipartUpload bucket key uploadID ab.1]
            world := ab.2 }
        | .ok etag =>
          let r := uploadLoop env bucket key uploadID fuel up.2 rd.buf (partNumber + 1)
            (completedParts ++ [{ ETag := etag, PartNumber := int32 partNumber }])
          { exit := r.exit
            trace := .Read rd.n rd.err
              :: .UploadPart bucket key (int32 partNumber) uploadID body up.1 :: r.trace
            world := r.world }

/-- Function `multipartUpload` of `multipart_mas.go` (lines 112-184). -/
def multipartUpload {σ : Type} (env : World σ) (w : σ) (filePath bucket key : String)
    (partSizeMB : Int) (fuel : Nat) : Run σ :=
  let op := env.Open w filePath
  match op.1 with
  | some err => { outcome := .returned (some err), trace := [.Open filePath op.1], world := op.2 }
  | none =>
    let cr := env.CreateMultipartUpload op.2 bucket key
    match cr.1 with
    | .error err =>
      { outcome := .returned (some err)
        trace := [.Open filePath op.1, .CreateMultipartUpload bucket key cr.1]
        world := cr.2 }
    | .ok uploadID =>
      let partSize := int64 (int64 partSizeMB * 1024 * 1024)
      match makeCompletedParts partSize with
      | none =>
        { outcome := .panicked
          trace := [.Open filePath op.1, .CreateMultipartUpload bucket key cr.1]
          world := cr.2 }
      | some completedParts =>
        match makeBuf partSize with
        | none =>
          { outcome := .panicked
            trace := [.Open filePath op.1, .CreateMultipartUpload bucket key cr.1]
            world := cr.2 }
        | some buf =>
          let lp := uploadLoop env bucket key uploadID fuel cr.2 buf 1 completedParts
          match lp.exit with
          | .unfinished =>
            { outcome := .unfinished
              trace := .Open filePath op.1 :: .CreateMultipartUpload bucket key cr.1 :: lp.trace
              world := lp.world }
          | .ret err =>
            { outcome := .returned (some err)
              trace := .Open filePath op.1 :: .CreateMultipartUpload bucket key cr.1 :: lp.trace
              world := lp.world }
          | .brk completedParts =>
            let c := completeUpload env bucket key uploadID completedParts lp.world
            { outcome := c.outcome
              trace := .Open filePath op.1 :: .CreateMultipartUpload bucket key cr.1
                :: (lp.trace ++ c.trace)
              world := c.world }

/-- Function `randomString` (lines 71-79): `n` random letters, in the order drawn. -/
def randomString {σ : Type} (env : World σ) : Nat → σ → List Char × σ
  | 0, w => ([], w)
  | n + 1, w =>
    let num := env.RandInt w
    let rest := randomString env n num.2
    (letterAt num.1 :: rest.1, rest.2)

/-- Function `uploadOneFile` of `multipart_mas.go` (lines 186-206). It returns no value:
both errors are only logged. -/
def uploadOneFile {σ : Type} (env : World σ) (w : σ) (iteration : Int)
    (filePath bucket : String) (partSizeMB idx : Int) (fuel : Nat) : Run σ :=
  let suffix := randomString env 6 w
  let key := objectKey iteration idx (String.mk suffix.1)
  let up := multipartUpload env suffix.2 filePath bucket key partSizeMB fuel
  match up.outcome with
  | .returned none =>
    let del := env.DeleteObject up.world bucket key
    { outcome := .returned none
      trace := up.trace ++ [.DeleteObject bucket key del.1]
      world := del.2 }
  | .returned (some _) => { outcome := .returned none, trace := up.trace, world := up.world }
  | .panicked => up
  | .unfinished => up

end MultipartMas

/-! ## `multipart_mas copy.go` -/

namespace MultipartMasCopy

/-- The `for` loop of `multipartUpload` (lines 192-224), with a budget on iterations. -/
def uploadLoop {σ : Type} (env : World σ) (bucket key uploadID : String) :
    Nat → σ → List Byte → Int → List CompletedPart → LoopRun σ
  | 0, w, _, _, _ => { exit := .unfinished, trace := [], world := w }
  | fuel + 1, w, buf, partNumber, completed =>
    let rd := readInto env w buf
    if rd.n = 0 ∨ rd.err = some GoError.EOF then
      { exit := .brk completed, trace := [.Read rd.n rd.err], world := rd.world }
    else
      match rd.err with
      | some err => { exit := .ret err, trace := [.Read rd.n rd.err], world := rd.world }
      | none =>
        let body := rd.buf.take rd.n
        let up := env.UploadPart rd.world bucket key (int32 partNumber) uploadID body
        match up.1 with
        | .error err =>
          let ab := env.AbortMultipartUpload up.2 bucket key uploadID
          { exit := .ret err
            trace := [.Read rd.n rd.err,
                      .UploadPart bucket key (int32 partNumber) uploadID body up.1,
                      .AbortMultipartUpload bucket key uploadID ab.1]
            world := ab.2 }
        | .ok etag =>
          let r := uploadLoop env bucket key uploadID fuel up.2 rd.buf (partNumber + 1)
            (completed ++ [{ ETag := etag, PartNumber := int32 partNumber }])
          { exit := r.exit
            trace := .Read rd.n rd.err
              :: .UploadPart bucket key (int32 partNumber) uploadID body up.1 :: r.trace
            world := r.world }

/-- Function `multipartUpload` of `multipart_mas copy.go` (lines 164-241). -/
def multipartUpload {σ : Type} (env : World σ) (w : σ) (filePath bucket key : String)
    (partSizeMB : Int) (fuel : Nat) : Run σ :=
  let op := env.Open w filePath
  match op.1 with
  | some err => { outcome := .returned (some err), trace := [.Open filePath op.1], world := op.2 }
  | none =>
    let cr := env.CreateMultipartUpload op.2 bucket key
    match cr.1 with
    | .error err =>
      { outcome := .returned (some err)
        trace := [.Open filePath op.1, .CreateMultipartUpload bucket key cr.1]
        world := cr.2 }
    | .ok uploadID =>
      let partSize := int64 (int64 (partSizeMB * 1024 * 1024))
      match makeBuf partSize with
      | none =>
        { outcome := .panicked
          trace := [.Open filePath op.1, .CreateMultipartUpload bucket key cr.1]
          world := cr.2 }
      | some buf =>
        let lp := uploadLoop env bucket key uploadID fuel cr.2 buf 1 []
        match lp.exit with
        | .unfinished =>
          { outcome := .unfinished
            trace := .Open filePath op.1 :: .CreateMultipartUpload bucket key cr.1 :: lp.trace
            world := lp.world }
        | .ret err =>
          { outcome := .returned (some err)
            trace := .Open filePath op.1 :: .CreateMultipartUpload bucket key cr.1 :: lp.trace
            world := lp.world }
        | .brk completed =>
          let c := completeUpload env bucket key uploadID completed lp.world
          { outcome := c.outcome
            trace := .Open filePath op.1 :: .CreateMultipartUpload bucket key cr.1
              :: (lp.trace ++ c.trace)
            world := c.world }

/-- Function `randSuffix` (lines 97-105): `n` random letters, in the order drawn. -/
def randSuffix {σ : Type} (env : World σ) : Nat → σ → List Char × σ
  | 0, w => ([], w)
  | n + 1, w =>
    let num := env.RandInt w
    let rest := randSuffix env n num.2
    (letterAt num.1 :: rest.1, rest.2)

/-- Function `uploadOneFile` of `multipart_mas copy.go` (lines 243-262). -/
def uploadOneFile {σ : Type} (env : World σ) (w : σ) (iteration : Int)
    (filePath bucket : String) (partSizeMB idx : Int) (fuel : Nat) : Run σ :=
  let suffix := randSuffix env 6 w
  let objectKey := objectKey iteration idx (String.mk suffix.1)
  let up := multipartUpload env suffix.2 filePath bucket objectKey partSizeMB fuel
  match up.outcome with
  | .returned none =>
    let del := env.DeleteObject up.world bucket objectKey
    { outcome := .returned del.1
      trace := up.trace ++ [.DeleteObject bucket objectKey del.1]
      world := del.2 }
  | .returned (some err) =>
    { outcome := .returned (some err), trace := up.trace, world := up.world }
  | .panicked => up
  | .unfinished => up

end MultipartMasCopy

/-! ## Observations on traces -/

/-- The part numbers of the `UploadPart` calls of a trace, in order. -/
def uploadPartNumbers (tr : List Event) : List Int :=
  tr.filterMap fun
    | .UploadPart _ _ partNumber _ _ _ => some partNumber
    | _ => none

/-- The bodies of the `UploadPart` calls of a trace, in order. -/
def uploadBodies (tr : List Event) : List (List Byte) :=
  tr.filterMap fun
    | .UploadPart _ _ _ _ body _ => some body
    | _ => none

/-- The completed-parts lists of the `CompleteMultipartUpload` calls of a trace. -/
def completeCalls (tr : List Event) : List (List CompletedPart) :=
  tr.filterMap fun
    | .CompleteMultipartUpload _ _ _ parts _ => some parts
    | _ => none

/-- Number `ceil(S / P)` of parts of a source of `S` bytes cut into parts of `P` bytes. -/
def ceilDiv (S P : Nat) : Nat := (S + P - 1) / P

/-- The part size in bytes that `multipartUpload` computes from `partSizeMB`
(`int64(partSizeMB) * 1024 * 1024`, with an `int` of 64 bits). -/
def partSizeBytes (partSizeMB : Int) : Int := int64 (partSizeMB * 1024 * 1024)

/-! ## The read loop on a regular file -/

/-- The entity tag of a successful `UploadPart` response. -/
def etagOf : Except GoError String → String
  | .ok etag => etag
  | .error _ => ""

/-- The events of `n` rounds of the read loop on a regular file with the unread bytes
`data` and a buffer of `P` bytes. -/
def fileRounds (bucket key uploadID : String) (respond : Int → List Byte → Except GoError String)
    (P : Nat) : Nat → List Byte → Int → List Event
  | 0, _, _ => []
  | n + 1, data, partNumber =>
    .Read (data.take P).length none
      :: .UploadPart bucket key (int32 partNumber) uploadID (data.take P)
          (respond (int32 partNumber) (data.take P))
      :: fileRounds bucket key uploadID respond P n (data.drop P) (partNumber + 1)

/-- The completed parts recorded by `n` rounds of the read loop on a regular file. -/
def fileParts (respond : Int → List Byte → Except GoError String) (P : Nat) :
    Nat → List Byte → Int → List CompletedPart
  | 0, _, _ => []
  | n + 1, data, partNumber =>
    { ETag := etagOf (respond (int32 partNumber) (data.take P)), PartNumber := int32 partNumber }
      :: fileParts respond P n (data.drop P) (partNumber + 1)

/-- The store accepts the parts of the first `n` rounds. -/
def fileAccepts (respond : Int → List Byte → Except GoError String) (P : Nat) :
    Nat → List Byte → Int → Prop
  | 0, _, _ => True
  | n + 1, data, partNumber =>
    (∃ etag, respond (int32 partNumber) (data.take P) = .ok etag)
      ∧ fileAccepts respond P n (data.drop P) (partNumber + 1)

/-- The unread bytes after `n` rounds. -/
def fileRest (P : Nat) : Nat → List Byte → List Byte
  | 0, data => data
  | n + 1, data => fileRest P n (data.drop P)

/-- The content of the buffer after `n` rounds. -/
def fileBuf (P : Nat) : Nat → List Byte → List Byte → List Byte
  | 0, _, buf => buf
  | n + 1, data, buf => fileBuf P n (data.drop P) (data.take P ++ buf.drop (data.take P).length)

/-! ## The shape of every run

The runs of the read loop, whatever the world does, are generated by five rules: the
budget runs out, a read ends the loop by `break`, a read ends it by `return err`, an
`UploadPart` call fails (and `AbortMultipartUpload` follows), or a part is uploaded and
the loop goes round again.  The two programs differ in which reads stop the loop and in
the error they return when `UploadPart` fails; `LoopPolicy` holds these differences. -/

/-- What the loop does with the result `(n, err)` of a read. -/
structure LoopPolicy where
  stop : Nat → Option GoError → Prop
  fail : Nat → GoError → Prop
  go : Nat → Option GoError → Prop
  wrap : Int → GoError → GoError

/-- The runs of the read loop from part number `partNumber` with the completed parts
`completedParts`. -/
inductive LoopShape (pol : LoopPolicy) (bucket key uploadID : String) :
    Int → List CompletedPart → LoopExit → List Event → Prop where
  | unfinished (partNumber : Int) (completedParts : List CompletedPart) :
    LoopShape pol bucket key uploadID partNumber completedParts .unfinished []
  | stop (partNumber : Int) (completedParts : List CompletedPart) (n : Nat)
      (err : Option GoError) :
    pol.stop n err →
    LoopShape pol bucket key uploadID partNumber completedParts (.brk completedParts)
      [.Read n err]
  | readFail (partNumber : Int) (completedParts : List CompletedPart) (n : Nat)
      (err : GoError) :
    pol.fail n err →
    LoopShape pol bucket key uploadID partNumber completedParts (.ret err) [.Read n (some err)]
  | uploadFail (partNumber : Int) (completedParts : List CompletedPart) (n : Nat)
      (rerr : Option GoError) (body : List Byte) (err : GoError) (ab : Option GoError) :
    pol.go n rerr → body.length = n →
    LoopShape pol bucket key uploadID partNumber completedParts
      (.ret (pol.wrap partNumber err))
      [.Read n rerr, .UploadPart bucket key (int32 partNumber) uploadID body (.error err),
       .AbortMultipartUpload bucket key uploadID ab]
  | round (partNumber : Int) (completedParts : List CompletedPart) (n : Nat)
      (rerr : Option GoError) (body : List Byte) (etag : String) (exit : LoopExit)
      (tr : List Event) :
    pol.go n rerr → body.length = n →
    LoopShape pol bucket key uploadID (partNumber + 1)
      (completedParts ++ [{ ETag := etag, PartNumber := int32 partNumber }]) exit tr →
    LoopShape pol bucket key uploadID partNumber completedParts exit
      (.Read n rerr :: .UploadPart bucket key (int32 partNumber) uploadID body (.ok etag) :: tr)

/-- The runs of `multipartUpload`. -/
inductive UploadShape (pol : LoopPolicy) (filePath bucket key : String) :
    Outcome → List Event → Prop where
  | openFail (err : GoError) :
    UploadShape pol filePath bucket key (.returned (some err)) [.Open filePath (some err)]
  | createFail (err : GoError) :
    UploadShape pol filePath bucket key (.returned (some err))
      [.Open filePath none, .CreateMultipartUpload bucket key (.error err)]
  | panicked (uploadID : String) :
    UploadShape pol filePath bucket key .panicked
      [.Open filePath none, .CreateMultipartUpload bucket key (.ok uploadID)]
  | unfinished (uploadID : String) (tr : List Event) :
    LoopShape pol bucket key uploadID 1 [] .unfinished tr →
    UploadShape pol filePath bucket key .unfinished
      (.Open filePath none :: .CreateMultipartUpload bucket key (.ok uploadID) :: tr)
  | loopFail (uploadID : String) (err : GoError) (tr : List Event) :
    LoopShape pol bucket key uploadID 1 [] (.ret err) tr →
    UploadShape pol filePath bucket key (.returned (some err))
      (.Open filePath none :: .CreateMultipartUpload bucket key (.ok uploadID) :: tr)
  | complete (uploadID : String) (parts : List CompletedPart) (tr : List Event)
      (err : Option GoError) :
    LoopShape pol bucket key uploadID 1 [] (.brk parts) tr →
    UploadShape pol filePath bucket key (.returned err)
      (.Open filePath none :: .CreateMultipartUpload bucket key (.ok uploadID)
        :: (tr ++ [.CompleteMultipartUpload bucket key uploadID parts err]))

/-- The loop of `multipart_mas.go`: a read with an error other than `io.EOF` returns it;
otherwise `n = 0` breaks; otherwise the part is uploaded, and a failure of `UploadPart`
is wrapped in a message with the part number. -/
def MultipartMas.policy : LoopPolicy where
  stop n err := n = 0 ∧ (err = none ∨ err = some GoError.EOF)
  fail _ err := err ≠ GoError.EOF
  go n err := n ≠ 0 ∧ (err = none ∨ err = some GoError.EOF)
  wrap partNumber err := .wrapped ("ошибка загрузки части " ++ formatD partNumber ++ ": ") err

/-- The loop of `multipart_mas copy.go`: `n = 0` or `io.EOF` breaks; otherwise an error
is returned; otherwise the part is uploaded, and a failure of `UploadPart` is returned
as it is. -/
def MultipartMasCopy.policy : LoopPolicy where
  stop n err := n = 0 ∨ err = some GoError.EOF
  fail n err := n ≠ 0 ∧ err ≠ GoError.EOF
  go n err := n ≠ 0 ∧ err = none
  wrap _ err := err

/-! ## Store calls of a run -/

/-- The event is a call on the object store (not a file operation). -/
def isStoreCall : Event → Bool
  | .Open _ _ => false
  | .Read _ _ => false
  | _ => true

/-- The calls that the object store sees, in order. -/
def storeCalls (tr : List Event) : List Event := tr.filter isStoreCall

/-- The event is an `UploadPart` call that failed. -/
def isFailedUploadPart : Event → Bool
  | .UploadPart _ _ _ _ _ (.error _) => true
  | _ => false

/-- The event is a `CompleteMultipartUpload` call. -/
def isComplete : Event → Bool
  | .CompleteMultipartUpload _ _ _ _ _ => true
  | _ => false

/-- The event is an `AbortMultipartUpload` call. -/
def isAbort : Event → Bool
  | .AbortMultipartUpload _ _ _ _ => true
  | _ => false

/-- The event is a `DeleteObject` call. -/
def isDelete : Event → Bool
  | .DeleteObject _ _ _ => true
  | _ => false

/-! ## Worlds and runs of the scenarios -/

/-- A store response that rejects the part numbers selected by `p` with the error `err`
and accepts every other part. -/
def rejectIf (p : Int → Bool) (err : GoError) : Int → List Byte → Except GoError String :=
  fun partNumber _ => if p partNumber then .error err else .ok "etag"

/-- The run of the scenario "`UploadPart` for part 2 fails with a transient error" on a
source of 45 MB with parts of 20 MB. -/
def part2Fails : Run (List Byte) :=
  MultipartMas.multipartUpload
    (fileWorld "id" (rejectIf (fun partNumber => partNumber == 2) (.api "SlowDown" "retry")))
    (List.replicate 47185920 0) "test-bigfile.bin" "bucket" "key" 20 (1 + (0 + 1))

/-- A store that rejects negative part numbers. -/
def rejectNegative : Int → List Byte → Except GoError String :=
  rejectIf (fun partNumber => decide (partNumber < 0)) (.api "InvalidArgument" "part number")

/-! ## Which events a run can contain -/

/-- The bucket and key of a store call. -/
def Event.target : Event → Option (String × String)
  | .CreateMultipartUpload bucket key _ => some (bucket, key)
  | .UploadPart bucket key _ _ _ _ => some (bucket, key)
  | .CompleteMultipartUpload bucket key _ _ _ => some (bucket, key)
  | .AbortMultipartUpload bucket key _ _ => some (bucket, key)
  | .DeleteObject bucket key _ => some (bucket, key)
  | _ => none

/-- The event is a `CompleteMultipartUpload` call that succeeded. -/
def isCompleteOk : Event → Bool
  | .CompleteMultipartUpload _ _ _ _ none => true
  | _ => false

/-- The transfer task of wave 1, task 1, on a source of 45 MB with parts of 20 MB and a
store on which every call succeeds. -/
def task45 : Run (List Byte) :=
  MultipartMas.uploadOneFile (fileWorld "id" (accept fun _ _ => "etag"))
    (List.replicate 47185920 0) 1 "test-bigfile.bin" "bucket" 20 1 4

/-- A world in which the first read of the file fails with an input/output error and no
byte, as `os.File.Read` does, and every store call succeeds. -/
def readFails : Script :=
  { openErr := none
    reads := [([], some (.other "read test-bigfile.bin: input/output error"))]
    create := .ok "id"
    uploads := []
    complete := none
    abort := none
    delete := none
    rand := [] }

/-- A world with an empty source file, in which `CompleteMultipartUpload` fails (a store
rejects a completion without parts) and every other call succeeds. -/
def completeFails : Script :=
  { openErr := none
    reads := []
    create := .ok "id"
    uploads := []
    complete := some (.api "MalformedXML" "you must specify at least one part")
    abort := none
    delete := none
    rand := [] }

/-! ## Decimal digits -/

/-- The value of a decimal digit character. -/
def digitVal (c : Char) : Nat := c.toNat - 48

/-- The number written by a list of decimal digit characters. -/
def ofDigitChars (l : List Char) : Nat := l.foldl (fun a c => 10 * a + digitVal c) 0

/-! ## `explainS3Error` -/

/-- Function `explainS3Error` of `multipart_mas copy.go` (lines 108-147). -/
def explainS3Error (code : String) : String :=
  if code = "NoSuchBucket" then "Указанный bucket не существует"
  else if code = "NoSuchKey" then "Указанный объект не найден"
  else if code = "AccessDenied" then "Нет прав доступа (ACL/Policy)"
  else if code = "InvalidAccessKeyId" then "Неверный AWS Access Key ID"
  else if code = "SignatureDoesNotMatch" then "Ошибка подписи (ключ/регион)"
  else if code = "RequestTimeTooSkewed" then "Время клиента отличается от сервера"
  else if code = "SlowDown" then "S3 просит снизить скорость (throttling)"
  else if code = "InternalError" then "Внутренняя ошибка S3"
  else if code = "ServiceUnavailable" then "Сервис недоступен"
  else if code = "ExpiredToken" then "Срок действия токена истёк"
  else if code = "InvalidBucketName" then "Некорректное имя bucket"
  else if code = "EntityTooSmall" then "Часть слишком маленькая (<5MB для multipart)"
  else if code = "EntityTooLarge" then "Объект слишком большой"
  else if code = "InvalidPart" then "Ошибка при сборке multipart"
  else if code = "InvalidPartOrder" then "Части загружены в неправильном порядке"
  else if code = "BucketAlreadyExists" then "Bucket уже существует (глобально)"
  else if code = "BucketAlreadyOwnedByYou" then "Bucket уже принадлежит вам"
  else ""

/-- The 17 error codes that `explainS3Error` knows, in the order of the `switch`. -/
def knownCodes : List String :=
  ["NoSuchBucket", "NoSuchKey", "AccessDenied", "InvalidAccessKeyId", "SignatureDoesNotMatch",
   "RequestTimeTooSkewed", "SlowDown", "InternalError", "ServiceUnavailable", "ExpiredToken",
   "InvalidBucketName", "EntityTooSmall", "EntityTooLarge", "InvalidPart", "InvalidPartOrder",
   "BucketAlreadyExists", "BucketAlreadyOwnedByYou"]

/-- The 17 explanations, in the order of the `switch`. -/
def explanations : List String :=
  ["Указанный bucket не существует", "Указанный объект не найден",
   "Нет прав доступа (ACL/Policy)", "Неверный AWS Access Key ID",
   "Ошибка подписи (ключ/регион)", "Время клиента отличается от сервера",
   "S3 просит снизить скорость (throttling)", "Внутренняя ошибка S3", "Сервис недоступен",
   "Срок действия токена истёк", "Некорректное имя bucket",
   "Часть слишком маленькая (<5MB для multipart)", "Объект слишком большой",
   "Ошибка при сборке multipart", "Части загружены в неправильном порядке",
   "Bucket уже существует (глобально)", "Bucket уже принадлежит вам"]

/-- A world with an empty source file in which every call succeeds except
`DeleteObject`. -/
def deleteFails : Script :=
  { openErr := none
    reads := []
    create := .ok "id"
    uploads := []
    complete := none
    abort := none
    delete := some (.api "AccessDenied" "delete not allowed")
    rand := [] }

/-! ## The object assembled from the parts -/

/-- The parts handed to `UploadPart` in a trace, each with its part number, in call
order. -/
def uploadParts (tr : List Event) : List (Int × List Byte) :=
  tr.filterMap fun
    | .UploadPart _ _ partNumber _ body _ => some (partNumber, body)
    | _ => none

/-- Insert a part into a list of parts in ascending part-number order, before the first
part with a part number that is not smaller. -/
def insertPart (p : Int × List Byte) : List (Int × List Byte) → List (Int × List Byte)
  | [] => [p]
  | q :: l => if p.1 ≤ q.1 then p :: q :: l else q :: insertPart p l

/-- The parts sorted by ascending part number (parts with equal numbers keep their call
order). -/
def inPartNumberOrder : List (Int × List Byte) → List (Int × List Byte)
  | [] => []
  | p :: l => insertPart p (inPartNumberOrder l)

/-- The concatenation of the bodies passed to `UploadPart`, taken in part-number order. -/
def assembled (tr : List Event) : List Byte :=
  ((inPartNumberOrder (uploadParts tr)).map Prod.snd).flatten

/-! # Theorems -/

/-! ## The read loop on a regular file -/

theorem ceilDiv_zero (P : Nat) (hP : 0 < P) : ceilDiv 0 P = 0 := by
  unfold ceilDiv
  rw [Nat.zero_add]
  exact Nat.div_eq_of_lt (by omega)

theorem ceilDiv_step (S P : Nat) (hP : 0 < P) (hS : 0 < S) :
    ceilDiv S P = ceilDiv (S - P) P + 1 := by
  unfold ceilDiv
  by_cases h : S ≤ P
  · have h0 : S - P = 0 := by omega
    rw [h0, Nat.zero_add, Nat.div_eq_of_lt (by omega : P - 1 < P)]
    have : S + P - 1 = (S - 1) + P := by omega
    rw [this, Nat.add_div_right _ hP, Nat.div_eq_of_lt (by omega)]
  · have : S + P - 1 = (S - P + P - 1) + P := by omega
    rw [this, Nat.add_div_right _ hP]

theorem ceilDiv_pos (S P n : Nat) (hP : 0 < P) (h : n + 1 ≤ ceilDiv S P) : 0 < S := by
  rcases Nat.eq_zero_or_pos S with h0 | h0
  · rw [h0, ceilDiv_zero P hP] at h; omega
  · exact h0

theorem length_take_add_drop (data buf : List Byte) :
    (data.take buf.length ++ buf.drop (data.take buf.length).length).length = buf.length := by
  rw [List.length_append, List.length_drop, List.length_take]
  omega

theorem length_fileBuf (P : Nat) :
    ∀ (n : Nat) (data buf : List Byte), buf.length = P → (fileBuf P n data buf).length = P := by
  intro n
  induction n with
  | zero => intro _ _ h; exact h
  | succ n ih =>
    intro data buf h
    subst h
    exact ih _ _ (length_take_add_drop data buf)

theorem fileRest_ceilDiv (P : Nat) (hP : 0 < P) :
    ∀ (n : Nat) (data : List Byte), ceilDiv data.length P = n → fileRest P n data = [] := by
  intro n
  induction n with
  | zero =>
    intro data h
    rcases Nat.eq_zero_or_pos data.length with h0 | h0
    · exact List.length_eq_zero.mp h0
    · rw [ceilDiv_step _ _ hP h0] at h; omega
  | succ n ih =>
    intro data h
    have hS : 0 < data.length := ceilDiv_pos _ _ n hP (by omega)
    rw [ceilDiv_step _ _ hP hS] at h
    exact ih (data.drop P) (by rw [List.length_drop]; omega)

theorem readInto_fileWorld (uploadId : String) (respond : Int → List Byte → Except GoError String)
    (data buf : List Byte) :
    readInto (fileWorld uploadId respond) data buf =
      { n := (data.take buf.length).length
        err := if data.take buf.length = [] ∧ 0 < buf.length then some GoError.EOF else none
        buf := data.take buf.length ++ buf.drop (data.take buf.length).length
        world := data.drop buf.length } := by
  simp [readInto, fileWorld, List.take_take]

theorem fileWorld_Open (uploadId : String) (respond : Int → List Byte → Except GoError String)
    (w : List Byte) (filePath : String) :
    (fileWorld uploadId respond).Open w filePath = (none, w) := rfl

theorem fileWorld_Create (uploadId : String) (respond : Int → List Byte → Except GoError String)
    (w : List Byte) (bucket key : String) :
    (fileWorld uploadId respond).CreateMultipartUpload w bucket key = (.ok uploadId, w) := rfl

theorem fileWorld_UploadPart (uploadId : String)
    (respond : Int → List Byte → Except GoError String)
    (w : List Byte) (bucket key : String) (partNumber : Int) (uid : String) (body : List Byte) :
    (fileWorld uploadId respond).UploadPart w bucket key partNumber uid body =
      (respond partNumber body, w) := rfl

theorem fileWorld_Complete (uploadId : String) (respond : Int → List Byte → Except GoError String)
    (w : List Byte) (bucket key uid : String) (parts : List CompletedPart) :
    (fileWorld uploadId respond).CompleteMultipartUpload w bucket key uid parts = (none, w) := rfl

theorem fileWorld_Abort (uploadId : String) (respond : Int → List Byte → Except GoError String)
    (w : List Byte) (bucket key uid : String) :
    (fileWorld uploadId respond).AbortMultipartUpload w bucket key uid = (none, w) := rfl

/-- On a regular file, `n` rounds of the loop whose parts the store accepts unfold into
their events, followed by the loop on what remains. -/
theorem MultipartMas.uploadLoop_rounds (bucket key uploadID uid : String)
    (respond : Int → List Byte → Except GoError String) (fuel n : Nat) :
    ∀ (data buf : List Byte) (partNumber : Int) (completedParts : List CompletedPart),
      0 < buf.length → n ≤ ceilDiv data.length buf.length →
      fileAccepts respond buf.length n data partNumber →
      MultipartMas.uploadLoop (fileWorld uid respond) bucket key uploadID (n + fuel) data buf
          partNumber completedParts =
        { exit := (MultipartMas.uploadLoop (fileWorld uid respond) bucket key uploadID fuel
            (fileRest buf.length n data) (fileBuf buf.length n data buf) (partNumber + n)
            (completedParts ++ fileParts respond buf.length n data partNumber)).exit
          trace := fileRounds bucket key uploadID respond buf.length n data partNumber ++
            (MultipartMas.uploadLoop (fileWorld uid respond) bucket key uploadID fuel
              (fileRest buf.length n data) (fileBuf buf.length n data buf) (partNumber + n)
              (completedParts ++ fileParts respond buf.length n data partNumber)).trace
          world := (MultipartMas.uploadLoop (fileWorld uid respond) bucket key uploadID fuel
            (fileRest buf.length n data) (fileBuf buf.length n data buf) (partNumber + n)
            (completedParts ++ fileParts respond buf.length n data partNumber)).world } := by
  induction n with
  | zero =>
    intro data buf partNumber completedParts _ _ _
    simp [fileRest, fileBuf, fileParts, fileRounds]
  | succ n ih =>
    intro data buf partNumber completedParts hP hn hacc
    have hS : 0 < data.length := ceilDiv_pos _ _ n hP hn
    have htake : data.take buf.length ≠ [] := by
      intro h
      have := congrArg List.length h
      rw [List.length_take, List.length_nil] at this
      omega
    have hlen : (data.take buf.length).length ≠ 0 := by
      intro h
      exact htake (List.length_eq_zero.mp h)
    have hbuf := length_take_add_drop data buf
    have hstep := ceilDiv_step data.length buf.length hP hS
    obtain ⟨⟨etag, hetag⟩, hacc'⟩ := hacc
    have ih' := ih (data.drop buf.length)
      (data.take buf.length ++ buf.drop (data.take buf.length).length) (partNumber + 1)
      (completedParts ++ [{ ETag := etag, PartNumber := int32 partNumber }])
      (by rw [hbuf]; exact hP)
      (by rw [hbuf, List.length_drop]; omega)
      (by rw [hbuf]; exact hacc')
    rw [hbuf] at ih'
    have hcast : partNumber + 1 + (n : Int) = partNumber + ((n + 1 : Nat) : Int) := by
      push_cast; ring
    rw [hcast] at ih'
    rw [show n + 1 + fuel = (n + fuel) + 1 by omega, MultipartMas.uploadLoop]
    simp only [readInto_fileWorld, htake, false_and, if_false, notNilNotEOF, hlen,
      List.take_left', fileWorld_UploadPart, hetag, ih', fileParts, fileRounds, fileRest,
      fileBuf, etagOf, List.append_assoc, List.singleton_append, List.cons_append,
      List.nil_append]

/-- On a regular file whose parts the store accepts, the loop ends by `break` after
`ceil(S / P)` rounds and one more read. -/
theorem MultipartMas.uploadLoop_fileWorld (bucket key uploadID uid : String)
    (respond : Int → List Byte → Except GoError String) (fuel : Nat)
    (data buf : List Byte) (partNumber : Int) (completedParts : List CompletedPart)
    (hP : 0 < buf.length) (hfuel : ceilDiv data.length buf.length < fuel)
    (hacc : fileAccepts respond buf.length (ceilDiv data.length buf.length) data partNumber) :
    MultipartMas.uploadLoop (fileWorld uid respond) bucket key uploadID fuel data buf partNumber
        completedParts =
      { exit := .brk (completedParts ++
          fileParts respond buf.length (ceilDiv data.length buf.length) data partNumber)
        trace := fileRounds bucket key uploadID respond buf.length
          (ceilDiv data.length buf.length) data partNumber ++ [.Read 0 (some GoError.EOF)]
        world := [] } := by
  obtain ⟨f, rfl⟩ : ∃ f, fuel = ceilDiv data.length buf.length + (f + 1) :=
    ⟨fuel - ceilDiv data.length buf.length - 1, by omega⟩
  rw [MultipartMas.uploadLoop_rounds bucket key uploadID uid respond (f + 1) _ data buf
    partNumber completedParts hP (Nat.le_refl _) hacc]
  rw [fileRest_ceilDiv buf.length hP _ data rfl, MultipartMas.uploadLoop]
  have hb : 0 < (fileBuf buf.length (ceilDiv data.length buf.length) data buf).length := by
    rw [length_fileBuf buf.length _ data buf rfl]
    exact hP
  simp [readInto_fileWorld, hb, notNilNotEOF]

/-- On a regular file, `n` rounds of the loop whose parts the store accepts unfold into
their events, followed by the loop on what remains. -/
theorem MultipartMasCopy.uploadLoop_rounds_copy (bucket key uploadID uid : String)
    (respond : Int → List Byte → Except GoError String) (fuel n : Nat) :
    ∀ (data buf : List Byte) (partNumber : Int) (completedParts : List CompletedPart),
      0 < buf.length → n ≤ ceilDiv data.length buf.length →
      fileAccepts respond buf.length n data partNumber →
      MultipartMasCopy.uploadLoop (fileWorld uid respond) bucket key uploadID (n + fuel) data buf
          partNumber completedParts =
        { exit := (MultipartMasCopy.uploadLoop (fileWorld uid respond) bucket key uploadID fuel
            (fileRest buf.length n data) (fileBuf buf.length n data buf) (partNumber + n)
            (completedParts ++ fileParts respond buf.length n data partNumber)).exit
          trace := fileRounds bucket key uploadID respond buf.length n data partNumber ++
            (MultipartMasCopy.uploadLoop (fileWorld uid respond) bucket key uploadID fuel
              (fileRest buf.length n data) (fileBuf buf.length n data buf) (partNumber + n)
              (completedParts ++ fileParts respond buf.length n data partNumber)).trace
          world := (MultipartMasCopy.uploadLoop (fileWorld uid respond) bucket key uploadID fuel
            (fileRest buf.length n data) (fileBuf buf.length n data buf) (partNumber + n)
            (completedParts ++ fileParts respond buf.length n data partNumber)).world } := by
  induction n with
  | zero =>
    intro data buf partNumber completedParts _ _ _
    simp [fileRest, fileBuf, fileParts, fileRounds]
  | succ n ih =>
    intro data buf partNumber completedParts hP hn hacc
    have hS : 0 < data.length := ceilDiv_pos _ _ n hP hn
    have htake : data.take buf.length ≠ [] := by
      intro h
      have := congrArg List.length h
      rw [List.length_take, List.length_nil] at this
      omega
    have hlen : (data.take buf.length).length ≠ 0 := by
      intro h
      exact htake (List.length_eq_zero.mp h)
    have hbuf := length_take_add_drop data buf
    have hstep := ceilDiv_step data.length buf.length hP hS
    obtain ⟨⟨etag, hetag⟩, hacc'⟩ := hacc
    have ih' := ih (data.drop buf.length)
      (data.take buf.length ++ buf.drop (data.take buf.length).length) (partNumber + 1)
      (completedParts ++ [{ ETag := etag, PartNumber := int32 partNumber }])
      (by rw [hbuf]; exact hP)
      (by rw [hbuf, List.length_drop]; omega)
      (by rw [hbuf]; exact hacc')
    rw [hbuf] at ih'
    have hcast : partNumber + 1 + (n : Int) = partNumber + ((n + 1 : Nat) : Int) := by
      push_cast; ring
    rw [hcast] at ih'
    rw [show n + 1 + fuel = (n + fuel) + 1 by omega, MultipartMasCopy.uploadLoop]
    simp only [readInto_fileWorld, htake, false_and, if_false, false_or, reduceCtorEq, hlen,
      List.take_left', fileWorld_UploadPart, hetag, ih', fileParts, fileRounds, fileRest,
      fileBuf, etagOf, List.append_assoc, List.singleton_append, List.cons_append,
      List.nil_append]

/-- On a regular file whose parts the store accepts, the loop ends by `break` after
`ceil(S / P)` rounds and one more read. -/
theorem MultipartMasCopy.uploadLoop_fileWorld_copy (bucket key uploadID uid : String)
    (respond : Int → List Byte → Except GoError String) (fuel : Nat)
    (data buf : List Byte) (partNumber : Int) (completedParts : List CompletedPart)
    (hP : 0 < buf.length) (hfuel : ceilDiv data.length buf.length < fuel)
    (hacc : fileAccepts respond buf.length (ceilDiv data.length buf.length) data partNumber) :
    MultipartMasCopy.uploadLoop (fileWorld uid respond) bucket key uploadID fuel data buf partNumber
        completedParts =
      { exit := .brk (completedParts ++
          fileParts respond buf.length (ceilDiv data.length buf.length) data partNumber)
        trace := fileRounds bucket key uploadID respond buf.length
          (ceilDiv data.length buf.length) data partNumber ++ [.Read 0 (some GoError.EOF)]
        world := [] } := by
  obtain ⟨f, rfl⟩ : ∃ f, fuel = ceilDiv data.length buf.length + (f + 1) :=
    ⟨fuel - ceilDiv data.length buf.length - 1, by omega⟩
  rw [MultipartMasCopy.uploadLoop_rounds_copy bucket key uploadID uid respond (f + 1) _ data buf
    partNumber completedParts hP (Nat.le_refl _) hacc]
  rw [fileRest_ceilDiv buf.length hP _ data rfl, MultipartMasCopy.uploadLoop]
  have hb : 0 < (fileBuf buf.length (ceilDiv data.length buf.length) data buf).length := by
    rw [length_fileBuf buf.length _ data buf rfl]
    exact hP
  simp [readInto_fileWorld, hb]

theorem makeBuf_of_pos (partSize : Int) (h : 0 < partSize) (hmax : partSize ≤ maxAlloc) :
    makeBuf partSize = some (List.replicate partSize.toNat 0) := by
  unfold makeBuf
  rw [if_neg (by omega)]

theorem makeBuf_zero : makeBuf 0 = some [] := rfl

theorem makeBuf_of_gt (partSize : Int) (h : maxAlloc < partSize) : makeBuf partSize = none := by
  unfold makeBuf
  rw [if_pos (Or.inr h)]

theorem makeCompletedParts_of_pos (partSize : Int) (h : 0 < partSize) :
    makeCompletedParts partSize = some [] := by
  unfold makeCompletedParts
  rw [if_neg (by omega)]

theorem makeCompletedParts_eq_some (partSize : Int) (parts : List CompletedPart)
    (h : makeCompletedParts partSize = some parts) : parts = [] := by
  unfold makeCompletedParts at h
  split at h
  · exact absurd h (by simp)
  · exact (Option.some.inj h).symm

theorem MultipartMas.partSize_eq (partSizeMB : Int) :
    int64 (int64 partSizeMB * 1024 * 1024) = partSizeBytes partSizeMB := by
  unfold partSizeBytes int64
  omega

theorem MultipartMasCopy.partSize_eq_copy (partSizeMB : Int) :
    int64 (int64 (partSizeMB * 1024 * 1024)) = partSizeBytes partSizeMB := by
  unfold partSizeBytes int64
  omega

/-- The run of `multipartUpload` on a regular file whose parts the store accepts. -/
theorem MultipartMas.multipartUpload_fileWorld (uid : String)
    (respond : Int → List Byte → Except GoError String)
    (data : List Byte) (filePath bucket key : String) (partSizeMB : Int) (fuel : Nat)
    (hP : 0 < partSizeBytes partSizeMB) (hmax : partSizeBytes partSizeMB ≤ maxAlloc)
    (hfuel : ceilDiv data.length (partSizeBytes partSizeMB).toNat < fuel)
    (hacc : fileAccepts respond (partSizeBytes partSizeMB).toNat
      (ceilDiv data.length (partSizeBytes partSizeMB).toNat) data 1) :
    MultipartMas.multipartUpload (fileWorld uid respond) data filePath bucket key partSizeMB fuel =
      { outcome := .returned none
        trace := .Open filePath none :: .CreateMultipartUpload bucket key (.ok uid)
          :: (fileRounds bucket key uid respond (partSizeBytes partSizeMB).toNat
                (ceilDiv data.length (partSizeBytes partSizeMB).toNat) data 1
              ++ [.Read 0 (some GoError.EOF),
                  .CompleteMultipartUpload bucket key uid
                    (fileParts respond (partSizeBytes partSizeMB).toNat
                      (ceilDiv data.length (partSizeBytes partSizeMB).toNat) data 1) none])
        world := [] } := by
  have hlen : (List.replicate (partSizeBytes partSizeMB).toNat (0 : Byte)).length
      = (partSizeBytes partSizeMB).toNat := List.length_replicate _ _
  have hloop := MultipartMas.uploadLoop_fileWorld bucket key uid uid respond fuel data
    (List.replicate (partSizeBytes partSizeMB).toNat 0) 1 []
    (by rw [hlen]; omega) (by rw [hlen]; exact hfuel) (by rw [hlen]; exact hacc)
  rw [hlen] at hloop
  simp only [MultipartMas.multipartUpload, fileWorld_Open, fileWorld_Create,
    MultipartMas.partSize_eq, makeBuf_of_pos _ hP hmax, makeCompletedParts_of_pos _ hP, hloop, completeUpload, fileWorld_Complete,
    List.nil_append, List.append_assoc, List.singleton_append]

/-- The run of `multipartUpload` (copy) on a regular file whose parts the store accepts. -/
theorem MultipartMasCopy.multipartUpload_fileWorld_copy (uid : String)
    (respond : Int → List Byte → Except GoError String)
    (data : List Byte) (filePath bucket key : String) (partSizeMB : Int) (fuel : Nat)
    (hP : 0 < partSizeBytes partSizeMB) (hmax : partSizeBytes partSizeMB ≤ maxAlloc)
    (hfuel : ceilDiv data.length (partSizeBytes partSizeMB).toNat < fuel)
    (hacc : fileAccepts respond (partSizeBytes partSizeMB).toNat
      (ceilDiv data.length (partSizeBytes partSizeMB).toNat) data 1) :
    MultipartMasCopy.multipartUpload (fileWorld uid respond) data filePath bucket key partSizeMB
        fuel =
      { outcome := .returned none
        trace := .Open filePath none :: .CreateMultipartUpload bucket key (.ok uid)
          :: (fileRounds bucket key uid respond (partSizeBytes partSizeMB).toNat
                (ceilDiv data.length (partSizeBytes partSizeMB).toNat) data 1
              ++ [.Read 0 (some GoError.EOF),
                  .CompleteMultipartUpload bucket key uid
                    (fileParts respond (partSizeBytes partSizeMB).toNat
                      (ceilDiv data.length (partSizeBytes partSizeMB).toNat) data 1) none])
        world := [] } := by
  have hlen : (List.replicate (partSizeBytes partSizeMB).toNat (0 : Byte)).length
      = (partSizeBytes partSizeMB).toNat := List.length_replicate _ _
  have hloop := MultipartMasCopy.uploadLoop_fileWorld_copy bucket key uid uid respond fuel data
    (List.replicate (partSizeBytes partSizeMB).toNat 0) 1 []
    (by rw [hlen]; omega) (by rw [hlen]; exact hfuel) (by rw [hlen]; exact hacc)
  rw [hlen] at hloop
  simp only [MultipartMasCopy.multipartUpload, fileWorld_Open, fileWorld_Create,
    MultipartMasCopy.partSize_eq_copy, makeBuf_of_pos _ hP hmax, makeCompletedParts_of_pos _ hP, hloop, completeUpload,
    fileWorld_Complete, List.nil_append, List.append_assoc, List.singleton_append]

theorem fileAccepts_accept (etag : Int → List Byte → String) (P : Nat) :
    ∀ (n : Nat) (data : List Byte) (partNumber : Int),
      fileAccepts (accept etag) P n data partNumber := by
  intro n
  induction n with
  | zero => intro _ _; trivial
  | succ n ih => intro data partNumber; exact ⟨⟨_, rfl⟩, ih _ _⟩

/-! ## Projections of the rounds on a regular file -/

theorem uploadPartNumbers_cons_read (n : Nat) (err : Option GoError) (tr : List Event) :
    uploadPartNumbers (.Read n err :: tr) = uploadPartNumbers tr := rfl

theorem uploadPartNumbers_fileRounds (bucket key uploadID : String)
    (respond : Int → List Byte → Except GoError String) (P : Nat) :
    ∀ (n : Nat) (data : List Byte) (partNumber : Int),
      uploadPartNumbers (fileRounds bucket key uploadID respond P n data partNumber) =
        (List.range n).map fun (i : Nat) => int32 (partNumber + (i : Int)) := by
  intro n
  induction n with
  | zero => intro _ _; rfl
  | succ n ih =>
    intro data partNumber
    rw [List.range_succ_eq_map, List.map_cons, List.map_map, fileRounds]
    simp only [uploadPartNumbers, List.filterMap_cons]
    rw [← uploadPartNumbers, ih]
    simp only [Nat.cast_zero, add_zero, List.cons.injEq, true_and]
    apply List.map_congr_left
    intro i _
    simp only [Function.comp, Nat.succ_eq_add_one, Nat.cast_add, Nat.cast_one]
    congr 1
    ring

theorem partNumbers_fileParts (respond : Int → List Byte → Except GoError String) (P : Nat) :
    ∀ (n : Nat) (data : List Byte) (partNumber : Int),
      (fileParts respond P n data partNumber).map CompletedPart.PartNumber =
        (List.range n).map fun (i : Nat) => int32 (partNumber + (i : Int)) := by
  intro n
  induction n with
  | zero => intro _ _; rfl
  | succ n ih =>
    intro data partNumber
    rw [List.range_succ_eq_map, List.map_cons, List.map_map, fileParts, List.map_cons, ih]
    simp only [Nat.cast_zero, add_zero, List.cons.injEq, true_and]
    apply List.map_congr_left
    intro i _
    simp only [Function.comp, Nat.succ_eq_add_one, Nat.cast_add, Nat.cast_one]
    congr 1
    ring

theorem int32_of_lt (i : Int) (h0 : -2147483648 ≤ i) (h1 : i < 2147483648) : int32 i = i := by
  unfold int32
  omega

theorem completeCalls_fileRounds (bucket key uploadID : String)
    (respond : Int → List Byte → Except GoError String) (P : Nat) :
    ∀ (n : Nat) (data : List Byte) (partNumber : Int),
      completeCalls (fileRounds bucket key uploadID respond P n data partNumber) = [] := by
  intro n
  induction n with
  | zero => intro _ _; rfl
  | succ n ih =>
    intro data partNumber
    rw [fileRounds]
    simp only [completeCalls, List.filterMap_cons]
    rw [← completeCalls, ih]

theorem uploadPartNumbers_run (filePath bucket key uid : String) (tr : List Event)
    (parts : List CompletedPart) (e1 e2 e3 : Option GoError) (r : Except GoError String) :
    uploadPartNumbers (.Open filePath e1 :: .CreateMultipartUpload bucket key r
      :: (tr ++ [.Read 0 e2, .CompleteMultipartUpload bucket key uid parts e3])) =
      uploadPartNumbers tr := by
  simp [uploadPartNumbers, List.filterMap_cons, List.filterMap_append]

theorem completeCalls_run (filePath bucket key uid : String) (tr : List Event)
    (parts : List CompletedPart) (e1 e2 e3 : Option GoError) (r : Except GoError String) :
    completeCalls (.Open filePath e1 :: .CreateMultipartUpload bucket key r
      :: (tr ++ [.Read 0 e2, .CompleteMultipartUpload bucket key uid parts e3])) =
      completeCalls tr ++ [parts] := by
  simp [completeCalls, List.filterMap_cons, List.filterMap_append]

theorem map_int32_range (n : Nat) (hn : n < 2147483648) :
    ((List.range n).map fun (i : Nat) => int32 (1 + (i : Int))) =
      (List.range' 1 n).map fun (i : Nat) => (i : Int) := by
  rw [List.range'_eq_map_range, List.map_map]
  apply List.map_congr_left
  intro i hi
  have := List.mem_range.mp hi
  simp only [Function.comp, Nat.cast_add, Nat.cast_one]
  exact int32_of_lt _ (by omega) (by omega)

/-- C1 (as amended). On a regular file of `S` bytes with a part size `P > 0`, when every
read and every store call succeeds, both variants of `multipartUpload` return without
error after issuing exactly `ceil(S/P)` `UploadPart` calls; when `ceil(S/P)` fits the
`int32` part number (`ceil(S/P) < 2^31`), these calls carry the part numbers
`1, 2, ..., ceil(S/P)` in this order, and the one `CompleteMultipartUpload` call lists
exactly these part numbers, each once and in increasing order. -/
theorem multipartUpload_part_numbers (uid : String) (etag : Int → List Byte → String)
    (data : List Byte) (filePath bucket key : String) (partSizeMB : Int) (fuel : Nat)
    (hP : 0 < partSizeBytes partSizeMB) (hmax : partSizeBytes partSizeMB ≤ maxAlloc)
    (hfuel : ceilDiv data.length (partSizeBytes partSizeMB).toNat < fuel)
    (run : Run (List Byte))
    (hrun : run = MultipartMas.multipartUpload (fileWorld uid (accept etag)) data filePath
        bucket key partSizeMB fuel
      ∨ run = MultipartMasCopy.multipartUpload (fileWorld uid (accept etag)) data filePath
        bucket key partSizeMB fuel) :
    run.outcome = .returned none
    ∧ (uploadPartNumbers run.trace).length = ceilDiv data.length (partSizeBytes partSizeMB).toNat
    ∧ (ceilDiv data.length (partSizeBytes partSizeMB).toNat < 2147483648 →
        uploadPartNumbers run.trace =
          (List.range' 1 (ceilDiv data.length (partSizeBytes partSizeMB).toNat)).map
            (fun (i : Nat) => (i : Int))
        ∧ ∃ parts, completeCalls run.trace = [parts]
          ∧ parts.map CompletedPart.PartNumber =
            (List.range' 1 (ceilDiv data.length (partSizeBytes partSizeMB).toNat)).map
              (fun (i : Nat) => (i : Int))) := by
  have hrun' : run =
      { outcome := .returned none
        trace := .Open filePath none :: .CreateMultipartUpload bucket key (.ok uid)
          :: (fileRounds bucket key uid (accept etag) (partSizeBytes partSizeMB).toNat
                (ceilDiv data.length (partSizeBytes partSizeMB).toNat) data 1
              ++ [.Read 0 (some GoError.EOF),
                  .CompleteMultipartUpload bucket key uid
                    (fileParts (accept etag) (partSizeBytes partSizeMB).toNat
                      (ceilDiv data.length (partSizeBytes partSizeMB).toNat) data 1) none])
        world := [] } := by
    rcases hrun with h | h
    · rw [h]
      exact MultipartMas.multipartUpload_fileWorld uid _ data filePath bucket key partSizeMB
        fuel hP hmax hfuel (fileAccepts_accept etag _ _ _ _)
    · rw [h]
      exact MultipartMasCopy.multipartUpload_fileWorld_copy uid _ data filePath bucket key
        partSizeMB fuel hP hmax hfuel (fileAccepts_accept etag _ _ _ _)
  subst hrun'
  simp only [uploadPartNumbers_run, completeCalls_run, uploadPartNumbers_fileRounds,
    completeCalls_fileRounds, partNumbers_fileParts, List.nil_append, List.length_map,
    List.length_range, true_and]
  intro hn
  exact ⟨map_int32_range _ hn, _, rfl, by rw [partNumbers_fileParts, map_int32_range _ hn]⟩

theorem partSizeBytes_20 : partSizeBytes 20 = 20971520 := by decide

theorem ceilDiv_45_20 : ceilDiv 47185920 20971520 = 3 := by decide

/-- C1 witness: a source of 45 MB with parts of 20 MB is uploaded as parts 1, 2, 3. -/
theorem multipartUpload_part_numbers_witness :
    uploadPartNumbers (MultipartMas.multipartUpload (fileWorld "id" (accept fun _ _ => "etag"))
      (List.replicate 47185920 0) "test-bigfile.bin" "bucket" "key" 20 4).trace = [1, 2, 3] := by
  have h := multipartUpload_part_numbers "id" (fun _ _ => "etag") (List.replicate 47185920 0)
    "test-bigfile.bin" "bucket" "key" 20 4 (by rw [partSizeBytes_20]; decide) (by rw [partSizeBytes_20]; decide)
    (by rw [partSizeBytes_20, List.length_replicate]; decide) _ (Or.inl rfl)
  rw [partSizeBytes_20, List.length_replicate] at h
  have h3 : (20971520 : Int).toNat = 20971520 := rfl
  rw [h3, ceilDiv_45_20] at h
  exact (h.2.2 (by decide)).1

theorem partSizeBytes_1 : partSizeBytes 1 = 1048576 := by decide

theorem ceilDiv_2PiB : ceilDiv 2251799813685248 1048576 = 2147483648 := by decide

theorem not_mem_map_cast (l : List Nat) : (-2147483648 : Int) ∉ l.map fun (i : Nat) => (i : Int) := by
  intro h
  obtain ⟨i, _, hi⟩ := List.mem_map.mp h
  omega

theorem mem_map_int32_range :
    (-2147483648 : Int) ∈ (List.range 2147483648).map fun (i : Nat) => int32 (1 + (i : Int)) :=
  List.mem_map.mpr ⟨2147483647, List.mem_range.mpr (by decide), by decide⟩

theorem multipartUpload_wrap_of_length (data : List Byte)
    (hS : data.length = 2251799813685248) :
    (MultipartMas.multipartUpload (fileWorld "id" (accept fun _ _ => "etag"))
      data "test-bigfile.bin" "bucket" "key" 1 2147483649).outcome = .returned none
    ∧ ceilDiv data.length (partSizeBytes 1).toNat = 2147483648
    ∧ (-2147483648 : Int) ∈ uploadPartNumbers
      (MultipartMas.multipartUpload (fileWorld "id" (accept fun _ _ => "etag"))
        data "test-bigfile.bin" "bucket" "key" 1 2147483649).trace
    ∧ uploadPartNumbers
      (MultipartMas.multipartUpload (fileWorld "id" (accept fun _ _ => "etag"))
        data "test-bigfile.bin" "bucket" "key" 1 2147483649).trace
        ≠ (List.range' 1 2147483648).map (fun (i : Nat) => (i : Int))
    ∧ ∀ parts ∈ completeCalls
      (MultipartMas.multipartUpload (fileWorld "id" (accept fun _ _ => "etag"))
        data "test-bigfile.bin" "bucket" "key" 1 2147483649).trace,
        parts.map CompletedPart.PartNumber
          ≠ (List.range' 1 2147483648).map (fun (i : Nat) => (i : Int)) := by
  have hP : (partSizeBytes 1).toNat = 1048576 := by rw [partSizeBytes_1]; rfl
  have hn : ceilDiv data.length (partSizeBytes 1).toNat = 2147483648 := by
    rw [hS, hP, ceilDiv_2PiB]
  have hrun := MultipartMas.multipartUpload_fileWorld "id" (accept fun _ _ => "etag")
    data "test-bigfile.bin" "bucket" "key" 1 2147483649
    (by rw [partSizeBytes_1]; decide) (by rw [partSizeBytes_1]; decide) (by rw [hn]; decide) (fileAccepts_accept _ _ _ _ _)
  rw [hn] at hrun
  rw [hrun]
  simp only [uploadPartNumbers_run, completeCalls_run, uploadPartNumbers_fileRounds,
    completeCalls_fileRounds, List.nil_append, List.mem_singleton, forall_eq,
    partNumbers_fileParts]
  refine ⟨trivial, hn, mem_map_int32_range, ?_, ?_⟩
  · intro h
    exact not_mem_map_cast _ (h ▸ mem_map_int32_range)
  · intro h
    exact not_mem_map_cast _ (h ▸ mem_map_int32_range)

/-- C1 (counterexample to the claim as stated). A source of `2^51` bytes uploaded in parts
of 1 MB has `ceil(S/P) = 2^31` parts; every read and store call succeeds, and the part
number of the last `UploadPart` call, `int32(2147483648)`, is `-2147483648`: the part
numbers issued and listed are not `1, ..., ceil(S/P)`. -/
theorem multipartUpload_part_numbers_wrap :
    (MultipartMas.multipartUpload (fileWorld "id" (accept fun _ _ => "etag"))
      (List.replicate 2251799813685248 0) "test-bigfile.bin" "bucket" "key" 1
      2147483649).outcome = .returned none
    ∧ ceilDiv (List.replicate 2251799813685248 (0 : Byte)).length (partSizeBytes 1).toNat
      = 2147483648
    ∧ (-2147483648 : Int) ∈ uploadPartNumbers
      (MultipartMas.multipartUpload (fileWorld "id" (accept fun _ _ => "etag"))
        (List.replicate 2251799813685248 0) "test-bigfile.bin" "bucket" "key" 1
        2147483649).trace
    ∧ uploadPartNumbers
      (MultipartMas.multipartUpload (fileWorld "id" (accept fun _ _ => "etag"))
        (List.replicate 2251799813685248 0) "test-bigfile.bin" "bucket" "key" 1
        2147483649).trace ≠ (List.range' 1 2147483648).map (fun (i : Nat) => (i : Int))
    ∧ ∀ parts ∈ completeCalls
      (MultipartMas.multipartUpload (fileWorld "id" (accept fun _ _ => "etag"))
        (List.replicate 2251799813685248 0) "test-bigfile.bin" "bucket" "key" 1
        2147483649).trace,
        parts.map CompletedPart.PartNumber
          ≠ (List.range' 1 2147483648).map (fun (i : Nat) => (i : Int)) :=
  multipartUpload_wrap_of_length (List.replicate 2251799813685248 0) (List.length_replicate _ _)

/-! ## Every run has the shape given by `LoopShape` and `UploadShape` -/

theorem readInto_body {σ : Type} (env : World σ) (w : σ) (buf : List Byte) :
    ((readInto env w buf).buf.take (readInto env w buf).n).length = (readInto env w buf).n := by
  simp [readInto]

theorem notNilNotEOF_eq_some (e : Option GoError) (err : GoError) (h : notNilNotEOF e = some err) :
    e = some err ∧ err ≠ GoError.EOF := by
  cases e with
  | none => simp [notNilNotEOF] at h
  | some x =>
    cases x <;> simp [notNilNotEOF] at h <;> subst h <;> simp

theorem notNilNotEOF_eq_none (e : Option GoError) (h : notNilNotEOF e = none) :
    e = none ∨ e = some GoError.EOF := by
  cases e with
  | none => exact Or.inl rfl
  | some x =>
    cases x <;> simp_all [notNilNotEOF]

theorem MultipartMas.uploadLoop_shape {σ : Type} (env : World σ) (bucket key uploadID : String)
    (fuel : Nat) :
    ∀ (w : σ) (buf : List Byte) (partNumber : Int) (completedParts : List CompletedPart),
      LoopShape MultipartMas.policy bucket key uploadID partNumber completedParts
        (MultipartMas.uploadLoop env bucket key uploadID fuel w buf partNumber
          completedParts).exit
        (MultipartMas.uploadLoop env bucket key uploadID fuel w buf partNumber
          completedParts).trace := by
  induction fuel with
  | zero => intro w buf partNumber completedParts; exact .unfinished _ _
  | succ fuel ih =>
    intro w buf partNumber completedParts
    rw [MultipartMas.uploadLoop]
    cases hre : notNilNotEOF (readInto env w buf).err with
    | some err =>
      obtain ⟨h1, h2⟩ := notNilNotEOF_eq_some _ _ hre
      simp only [h1]
      exact .readFail _ _ _ _ h2
    | none =>
      have h1 := notNilNotEOF_eq_none _ hre
      by_cases hn : (readInto env w buf).n = 0
      · simp only [hn, if_true]
        exact .stop _ _ _ _ ⟨rfl, h1⟩
      · simp only [hn, if_false]
        cases hup : (env.UploadPart (readInto env w buf).world bucket key (int32 partNumber)
            uploadID ((readInto env w buf).buf.take (readInto env w buf).n)).1 with
        | error err =>
          exact @LoopShape.uploadFail MultipartMas.policy _ _ _ _ _ _ _ _ err _ ⟨hn, h1⟩
            (readInto_body env w buf)
        | ok etag =>
          exact .round _ _ _ _ _ etag _ _ ⟨hn, h1⟩ (readInto_body env w buf) (ih _ _ _ _)

theorem MultipartMasCopy.uploadLoop_shape_copy {σ : Type} (env : World σ)
    (bucket key uploadID : String) (fuel : Nat) :
    ∀ (w : σ) (buf : List Byte) (partNumber : Int) (completed : List CompletedPart),
      LoopShape MultipartMasCopy.policy bucket key uploadID partNumber completed
        (MultipartMasCopy.uploadLoop env bucket key uploadID fuel w buf partNumber
          completed).exit
        (MultipartMasCopy.uploadLoop env bucket key uploadID fuel w buf partNumber
          completed).trace := by
  induction fuel with
  | zero => intro w buf partNumber completed; exact .unfinished _ _
  | succ fuel ih =>
    intro w buf partNumber completed
    rw [MultipartMasCopy.uploadLoop]
    by_cases hstop : (readInto env w buf).n = 0 ∨ (readInto env w buf).err = some GoError.EOF
    · simp only [hstop, if_true]
      exact .stop _ _ _ _ hstop
    · simp only [hstop, if_false]
      have hn : (readInto env w buf).n ≠ 0 := fun h => hstop (Or.inl h)
      cases hre : (readInto env w buf).err with
      | some err =>
        have he : err ≠ GoError.EOF := fun h => hstop (Or.inr (by rw [hre, h]))
        exact @LoopShape.readFail MultipartMasCopy.policy _ _ _ _ _ _ _ ⟨hn, he⟩
      | none =>
        simp only []
        cases hup : (env.UploadPart (readInto env w buf).world bucket key (int32 partNumber)
            uploadID ((readInto env w buf).buf.take (readInto env w buf).n)).1 with
        | error err =>
          exact @LoopShape.uploadFail MultipartMasCopy.policy _ _ _ _ _ _ _ _ err _ ⟨hn, rfl⟩
            (readInto_body env w buf)
        | ok etag =>
          exact .round _ _ _ _ _ etag _ _ ⟨hn, rfl⟩ (readInto_body env w buf) (ih _ _ _ _)

theorem MultipartMas.multipartUpload_shape {σ : Type} (env : World σ) (w : σ)
    (filePath bucket key : String) (partSizeMB : Int) (fuel : Nat) :
    UploadShape MultipartMas.policy filePath bucket key
      (MultipartMas.multipartUpload env w filePath bucket key partSizeMB fuel).outcome
      (MultipartMas.multipartUpload env w filePath bucket key partSizeMB fuel).trace := by
  simp only [MultipartMas.multipartUpload]
  cases hop : (env.Open w filePath).1 with
  | some err => exact .openFail err
  | none =>
    simp only []
    cases hcr : (env.CreateMultipartUpload (env.Open w filePath).2 bucket key).1 with
    | error err => exact .createFail err
    | ok uploadID =>
      simp only []
      cases hcp : makeCompletedParts (int64 (int64 partSizeMB * 1024 * 1024)) with
      | none => exact .panicked uploadID
      | some completedParts =>
        simp only []
        have hnil := makeCompletedParts_eq_some _ _ hcp
        subst hnil
        cases hbuf : makeBuf (int64 (int64 partSizeMB * 1024 * 1024)) with
        | none => exact .panicked uploadID
        | some buf =>
          simp only []
          have hl := MultipartMas.uploadLoop_shape env bucket key uploadID fuel
            (env.CreateMultipartUpload (env.Open w filePath).2 bucket key).2 buf 1 []
          cases hex : (MultipartMas.uploadLoop env bucket key uploadID fuel
            (env.CreateMultipartUpload (env.Open w filePath).2 bucket key).2 buf 1 []).exit with
          | unfinished => rw [hex] at hl; exact .unfinished uploadID _ hl
          | ret err => rw [hex] at hl; exact .loopFail uploadID err _ hl
          | brk parts => rw [hex] at hl; exact .complete uploadID parts _ _ hl

theorem MultipartMasCopy.multipartUpload_shape_copy {σ : Type} (env : World σ) (w : σ)
    (filePath bucket key : String) (partSizeMB : Int) (fuel : Nat) :
    UploadShape MultipartMasCopy.policy filePath bucket key
      (MultipartMasCopy.multipartUpload env w filePath bucket key partSizeMB fuel).outcome
      (MultipartMasCopy.multipartUpload env w filePath bucket key partSizeMB fuel).trace := by
  simp only [MultipartMasCopy.multipartUpload]
  cases hop : (env.Open w filePath).1 with
  | some err => exact .openFail err
  | none =>
    simp only []
    cases hcr : (env.CreateMultipartUpload (env.Open w filePath).2 bucket key).1 with
    | error err => exact .createFail err
    | ok uploadID =>
      simp only []
      cases hbuf : makeBuf (int64 (int64 (partSizeMB * 1024 * 1024))) with
      | none => exact .panicked uploadID
      | some buf =>
        simp only []
        have hl := MultipartMasCopy.uploadLoop_shape_copy env bucket key uploadID fuel
          (env.CreateMultipartUpload (env.Open w filePath).2 bucket key).2 buf 1 []
        cases hex : (MultipartMasCopy.uploadLoop env bucket key uploadID fuel
          (env.CreateMultipartUpload (env.Open w filePath).2 bucket key).2 buf 1 []).exit with
        | unfinished => rw [hex] at hl; exact .unfinished uploadID _ hl
        | ret err => rw [hex] at hl; exact .loopFail uploadID err _ hl
        | brk parts => rw [hex] at hl; exact .complete uploadID parts _ _ hl

/-- A run of the loop in which an `UploadPart` call fails: the store sees the accepted
parts, the failing part and one abort, and the loop returns the (wrapped) error. -/
theorem LoopShape.loop_of_failed_part {pol : LoopPolicy} {bucket key uploadID : String}
    {partNumber : Int} {completedParts : List CompletedPart} {exit : LoopExit}
    {tr : List Event}
    (h : LoopShape pol bucket key uploadID partNumber completedParts exit tr)
    (hfail : ∃ e ∈ tr, isFailedUploadPart e = true) :
    ∃ (done : List Event) (body : List Byte) (err : GoError) (ab : Option GoError),
      storeCalls tr = done ++
        [.UploadPart bucket key (int32 (partNumber + done.length)) uploadID body (.error err),
         .AbortMultipartUpload bucket key uploadID ab]
      ∧ (∀ (i : Nat) (e : Event), done[i]? = some e →
          ∃ body etag, e = .UploadPart bucket key (int32 (partNumber + i)) uploadID body
            (.ok etag))
      ∧ exit = .ret (pol.wrap (partNumber + done.length) err)
      ∧ uploadPartNumbers tr =
          (List.range (done.length + 1)).map fun (i : Nat) => int32 (partNumber + (i : Int)) := by
  induction h with
  | unfinished => simp at hfail
  | stop => simp [isFailedUploadPart] at hfail
  | readFail => simp [isFailedUploadPart] at hfail
  | uploadFail partNumber completedParts n rerr body err ab hgo hbody =>
    refine ⟨[], body, err, ab, ?_, ?_, ?_, ?_⟩
    · simp [storeCalls, isStoreCall]
    · intro i e h; simp at h
    · simp
    · simp [uploadPartNumbers, List.range_succ]
  | round partNumber completedParts n rerr body etag exit tr hgo hbody hrest ih =>
    have hfail' : ∃ e ∈ tr, isFailedUploadPart e = true := by
      obtain ⟨e, he, hf⟩ := hfail
      simp only [List.mem_cons] at he
      rcases he with rfl | rfl | he
      · simp [isFailedUploadPart] at hf
      · simp [isFailedUploadPart] at hf
      · exact ⟨e, he, hf⟩
    obtain ⟨done, body', err, ab, h1, h2, h3, h4⟩ := ih hfail'
    refine ⟨.UploadPart bucket key (int32 partNumber) uploadID body (.ok etag) :: done,
      body', err, ab, ?_, ?_, ?_, ?_⟩
    · have hc : partNumber + ((List.length done + 1 : Nat) : Int)
          = partNumber + 1 + (done.length : Int) := by push_cast; ring
      simp only [storeCalls, List.filter_cons, isStoreCall, List.length_cons, hc] at h1 ⊢
      simp [h1]
    · intro i e hi
      cases i with
      | zero =>
        simp at hi
        exact ⟨body, etag, by simp [hi.symm]⟩
      | succ i =>
        simp only [List.getElem?_cons_succ] at hi
        obtain ⟨b, t, hb⟩ := h2 i e hi
        refine ⟨b, t, ?_⟩
        rw [hb]
        have : partNumber + 1 + (i : Int) = partNumber + ((i + 1 : Nat) : Int) := by
          push_cast; ring
        rw [this]
    · rw [h3]
      have : partNumber + 1 + (done.length : Int)
          = partNumber + ((List.length (Event.UploadPart bucket key (int32 partNumber) uploadID
              body (.ok etag) :: done) : Nat) : Int) := by
        simp only [List.length_cons]; push_cast; ring
      rw [this]
    · rw [List.length_cons, List.range_succ_eq_map, List.map_cons, List.map_map]
      simp only [uploadPartNumbers, List.filterMap_cons]
      rw [← uploadPartNumbers, h4]
      simp only [Nat.cast_zero, add_zero, List.cons.injEq, true_and]
      apply List.map_congr_left
      intro i _
      simp only [Function.comp, Nat.succ_eq_add_one, Nat.cast_add, Nat.cast_one]
      congr 1
      ring

theorem not_failed_of_loopShape_brk {pol : LoopPolicy} {bucket key uploadID : String}
    {partNumber : Int} {completedParts parts : List CompletedPart} {tr : List Event}
    (h : LoopShape pol bucket key uploadID partNumber completedParts (.brk parts) tr)
    (e : Event) (he : e ∈ tr) : isFailedUploadPart e = false := by
  cases hf : isFailedUploadPart e with
  | false => rfl
  | true =>
    obtain ⟨_, _, _, _, _, _, h3, _⟩ := h.loop_of_failed_part ⟨e, he, hf⟩
    simp at h3

/-- A run of `multipartUpload` in which an `UploadPart` call fails. -/
theorem UploadShape.of_failed_part {pol : LoopPolicy} {filePath bucket key : String}
    {outcome : Outcome} {tr : List Event}
    (h : UploadShape pol filePath bucket key outcome tr)
    (hfail : ∃ e ∈ tr, isFailedUploadPart e = true) :
    ∃ (uploadID : String) (done : List Event) (body : List Byte) (err : GoError)
        (ab : Option GoError),
      storeCalls tr = .CreateMultipartUpload bucket key (.ok uploadID) :: (done ++
        [.UploadPart bucket key (int32 (1 + done.length)) uploadID body (.error err),
         .AbortMultipartUpload bucket key uploadID ab])
      ∧ (∀ (i : Nat) (e : Event), done[i]? = some e →
          ∃ body etag, e = .UploadPart bucket key (int32 (1 + i)) uploadID body (.ok etag))
      ∧ outcome = .returned (some (pol.wrap (1 + done.length) err))
      ∧ uploadPartNumbers tr =
          (List.range (done.length + 1)).map fun (i : Nat) => int32 (1 + (i : Int)) := by
  cases h with
  | openFail err => simp [isFailedUploadPart] at hfail
  | createFail err => simp [isFailedUploadPart] at hfail
  | panicked uploadID => simp [isFailedUploadPart] at hfail
  | unfinished uploadID tr hl =>
    have hfail' : ∃ e ∈ tr, isFailedUploadPart e = true := by
      obtain ⟨e, he, hf⟩ := hfail
      simp only [List.mem_cons] at he
      rcases he with rfl | rfl | he
      · simp [isFailedUploadPart] at hf
      · simp [isFailedUploadPart] at hf
      · exact ⟨e, he, hf⟩
    obtain ⟨_, _, _, _, _, _, h3, _⟩ := hl.loop_of_failed_part hfail'
    simp at h3
  | loopFail uploadID err tr hl =>
    have hfail' : ∃ e ∈ tr, isFailedUploadPart e = true := by
      obtain ⟨e, he, hf⟩ := hfail
      simp only [List.mem_cons] at he
      rcases he with rfl | rfl | he
      · simp [isFailedUploadPart] at hf
      · simp [isFailedUploadPart] at hf
      · exact ⟨e, he, hf⟩
    obtain ⟨done, body, err', ab, h1, h2, h3, h4⟩ := hl.loop_of_failed_part hfail'
    refine ⟨uploadID, done, body, err', ab, ?_, h2, ?_, ?_⟩
    · simp only [storeCalls, List.filter_cons, isStoreCall] at h1 ⊢
      simp [h1]
    · simp only [LoopExit.ret.injEq] at h3
      rw [h3]
    · simp only [uploadPartNumbers, List.filterMap_cons]
      rw [← uploadPartNumbers, h4]
  | complete uploadID parts tr err hl =>
    obtain ⟨e, he, hf⟩ := hfail
    simp only [List.mem_cons, List.mem_append, List.mem_singleton, List.not_mem_nil,
      or_false] at he
    rcases he with rfl | rfl | he | rfl
    · simp [isFailedUploadPart] at hf
    · simp [isFailedUploadPart] at hf
    · rw [not_failed_of_loopShape_brk hl e he] at hf
      simp at hf
    · simp [isFailedUploadPart] at hf

/-! ## A part that the store rejects -/

theorem fileRest_ne_nil (P : Nat) (hP : 0 < P) :
    ∀ (n : Nat) (data : List Byte), n < ceilDiv data.length P → fileRest P n data ≠ [] := by
  intro n
  induction n with
  | zero =>
    intro data h hd
    rw [fileRest] at hd
    rw [hd, List.length_nil, ceilDiv_zero P hP] at h
    omega
  | succ n ih =>
    intro data h
    have hS : 0 < data.length := ceilDiv_pos _ _ (n + 1) hP (by omega)
    rw [ceilDiv_step _ _ hP hS] at h
    exact ih (data.drop P) (by rw [List.length_drop]; omega)

/-- On a regular file, when the store accepts the first `n` parts and rejects the next
one, the loop aborts the upload and returns the wrapped error. -/
theorem MultipartMas.uploadLoop_fileWorld_reject (bucket key uploadID uid : String)
    (respond : Int → List Byte → Except GoError String) (fuel n : Nat)
    (data buf : List Byte) (partNumber : Int) (completedParts : List CompletedPart)
    (err : GoError) (hP : 0 < buf.length) (hn : n < ceilDiv data.length buf.length)
    (hacc : fileAccepts respond buf.length n data partNumber)
    (hrej : respond (int32 (partNumber + n)) ((fileRest buf.length n data).take buf.length)
      = .error err) :
    MultipartMas.uploadLoop (fileWorld uid respond) bucket key uploadID (n + (fuel + 1)) data buf
        partNumber completedParts =
      { exit := .ret (.wrapped ("ошибка загрузки части " ++ formatD (partNumber + n) ++ ": ") err)
        trace := fileRounds bucket key uploadID respond buf.length n data partNumber ++
          [.Read ((fileRest buf.length n data).take buf.length).length none,
           .UploadPart bucket key (int32 (partNumber + n)) uploadID
             ((fileRest buf.length n data).take buf.length) (.error err),
           .AbortMultipartUpload bucket key uploadID none]
        world := (fileRest buf.length n data).drop buf.length } := by
  rw [MultipartMas.uploadLoop_rounds bucket key uploadID uid respond (fuel + 1) n data buf
    partNumber completedParts hP (Nat.le_of_lt hn) hacc]
  have hne := fileRest_ne_nil buf.length hP n data hn
  have hb := length_fileBuf buf.length n data buf rfl
  have htake : (fileRest buf.length n data).take buf.length ≠ [] := by
    intro h
    have h1 := congrArg List.length h
    rw [List.length_take, List.length_nil] at h1
    have h2 : 0 < (fileRest buf.length n data).length := List.length_pos.mpr hne
    omega
  have hlen : ((fileRest buf.length n data).take buf.length).length ≠ 0 := by
    intro h
    exact htake (List.length_eq_zero.mp h)
  rw [MultipartMas.uploadLoop]
  simp only [readInto_fileWorld, hb, htake, false_and, if_false, notNilNotEOF, hlen,
    List.take_left', fileWorld_UploadPart, hrej, fileWorld_Abort]

/-- The run of `multipartUpload` on a regular file when the store accepts the first `n`
parts and rejects the next one. -/
theorem MultipartMas.multipartUpload_fileWorld_reject (uid : String)
    (respond : Int → List Byte → Except GoError String)
    (data : List Byte) (filePath bucket key : String) (partSizeMB : Int) (fuel n : Nat)
    (err : GoError) (hP : 0 < partSizeBytes partSizeMB) (hmax : partSizeBytes partSizeMB ≤ maxAlloc)
    (hn : n < ceilDiv data.length (partSizeBytes partSizeMB).toNat)
    (hacc : fileAccepts respond (partSizeBytes partSizeMB).toNat n data 1)
    (hrej : respond (int32 (1 + n))
      ((fileRest (partSizeBytes partSizeMB).toNat n data).take (partSizeBytes partSizeMB).toNat)
      = .error err) :
    MultipartMas.multipartUpload (fileWorld uid respond) data filePath bucket key partSizeMB
        (n + (fuel + 1)) =
      { outcome := .returned (some
          (.wrapped ("ошибка загрузки части " ++ formatD (1 + n) ++ ": ") err))
        trace := .Open filePath none :: .CreateMultipartUpload bucket key (.ok uid)
          :: (fileRounds bucket key uid respond (partSizeBytes partSizeMB).toNat n data 1 ++
            [.Read ((fileRest (partSizeBytes partSizeMB).toNat n data).take
                (partSizeBytes partSizeMB).toNat).length none,
             .UploadPart bucket key (int32 (1 + n)) uid
               ((fileRest (partSizeBytes partSizeMB).toNat n data).take
                 (partSizeBytes partSizeMB).toNat) (.error err),
             .AbortMultipartUpload bucket key uid none])
        world := (fileRest (partSizeBytes partSizeMB).toNat n data).drop
          (partSizeBytes partSizeMB).toNat } := by
  have hlen : (List.replicate (partSizeBytes partSizeMB).toNat (0 : Byte)).length
      = (partSizeBytes partSizeMB).toNat := List.length_replicate _ _
  have hloop := MultipartMas.uploadLoop_fileWorld_reject bucket key uid uid respond fuel n data
    (List.replicate (partSizeBytes partSizeMB).toNat 0) 1 [] err
    (by rw [hlen]; omega) (by rw [hlen]; exact hn) (by rw [hlen]; exact hacc)
    (by rw [hlen]; exact hrej)
  rw [hlen] at hloop
  simp only [MultipartMas.multipartUpload, fileWorld_Open, fileWorld_Create,
    MultipartMas.partSize_eq, makeBuf_of_pos _ hP hmax, makeCompletedParts_of_pos _ hP, hloop]

theorem fileAccepts_rejectIf (p : Int → Bool) (err : GoError) (P : Nat) :
    ∀ (n : Nat) (data : List Byte) (partNumber : Int),
      (∀ i : Nat, i < n → p (int32 (partNumber + i)) = false) →
      fileAccepts (rejectIf p err) P n data partNumber := by
  intro n
  induction n with
  | zero => intro _ _ _; trivial
  | succ n ih =>
    intro data partNumber h
    refine ⟨⟨"etag", ?_⟩, ih _ _ ?_⟩
    · have := h 0 (by omega)
      simp only [Nat.cast_zero, add_zero] at this
      simp [rejectIf, this]
    · intro i hi
      have := h (i + 1) (by omega)
      rw [← this]
      congr 2
      push_cast
      ring

/-- C2 (as amended). In every run of `multipartUpload` (either variant, any world) in
which some `UploadPart` call fails, the store sees exactly: one successful
`CreateMultipartUpload`, then the `UploadPart` calls number `1, ..., k` of the session, of
which only the last one fails, then one `AbortMultipartUpload` for the session, and
nothing else (no `CompleteMultipartUpload`, no further `UploadPart`); the call number `i`
carries the part number `int32(i)`, which is `i` as long as `k < 2^31`; and
`multipartUpload` returns the error of the failed call, as it is or wrapped. -/
theorem multipartUpload_failed_part {σ : Type} (env : World σ) (w : σ)
    (filePath bucket key : String) (partSizeMB : Int) (fuel : Nat) (run : Run σ)
    (hrun : run = MultipartMas.multipartUpload env w filePath bucket key partSizeMB fuel
      ∨ run = MultipartMasCopy.multipartUpload env w filePath bucket key partSizeMB fuel)
    (hfail : ∃ e ∈ run.trace, isFailedUploadPart e = true) :
    ∃ (uploadID : String) (done : List Event) (body : List Byte) (err : GoError)
        (ab : Option GoError),
      storeCalls run.trace = .CreateMultipartUpload bucket key (.ok uploadID) :: (done ++
        [.UploadPart bucket key (int32 (1 + done.length)) uploadID body (.error err),
         .AbortMultipartUpload bucket key uploadID ab])
      ∧ (∀ (i : Nat) (e : Event), done[i]? = some e →
          ∃ body etag, e = .UploadPart bucket key (int32 (1 + i)) uploadID body (.ok etag))
      ∧ (done.length + 1 < 2147483648 →
          uploadPartNumbers run.trace =
            (List.range' 1 (done.length + 1)).map (fun (i : Nat) => (i : Int)))
      ∧ (run.outcome = .returned (some err)
          ∨ ∃ msg, run.outcome = .returned (some (.wrapped msg err))) := by
  rcases hrun with h | h
  · subst h
    obtain ⟨uploadID, done, body, err, ab, h1, h2, h3, h4⟩ :=
      (MultipartMas.multipartUpload_shape env w filePath bucket key partSizeMB
        fuel).of_failed_part hfail
    exact ⟨uploadID, done, body, err, ab, h1, h2,
      fun hk => by rw [h4, map_int32_range _ hk], Or.inr ⟨_, h3⟩⟩
  · subst h
    obtain ⟨uploadID, done, body, err, ab, h1, h2, h3, h4⟩ :=
      (MultipartMasCopy.multipartUpload_shape_copy env w filePath bucket key partSizeMB
        fuel).of_failed_part hfail
    exact ⟨uploadID, done, body, err, ab, h1, h2,
      fun hk => by rw [h4, map_int32_range _ hk], Or.inl h3⟩

theorem part2Fails_eq :
    part2Fails =
      { outcome := .returned (some
          (.wrapped ("ошибка загрузки части " ++ formatD (1 + (1 : Nat)) ++ ": ")
            (.api "SlowDown" "retry")))
        trace := .Open "test-bigfile.bin" none :: .CreateMultipartUpload "bucket" "key" (.ok "id")
          :: (fileRounds "bucket" "key" "id"
                (rejectIf (fun partNumber => partNumber == 2) (.api "SlowDown" "retry"))
                (partSizeBytes 20).toNat 1 (List.replicate 47185920 0) 1 ++
            [.Read ((fileRest (partSizeBytes 20).toNat 1 (List.replicate 47185920 0)).take
                (partSizeBytes 20).toNat).length none,
             .UploadPart "bucket" "key" (int32 (1 + (1 : Nat))) "id"
               ((fileRest (partSizeBytes 20).toNat 1 (List.replicate 47185920 0)).take
                 (partSizeBytes 20).toNat) (.error (.api "SlowDown" "retry")),
             .AbortMultipartUpload "bucket" "key" "id" none])
        world := (fileRest (partSizeBytes 20).toNat 1 (List.replicate 47185920 0)).drop
          (partSizeBytes 20).toNat } := by
  have h3 : (partSizeBytes 20).toNat = 20971520 := by rw [partSizeBytes_20]; rfl
  exact MultipartMas.multipartUpload_fileWorld_reject "id" _ (List.replicate 47185920 0)
    "test-bigfile.bin" "bucket" "key" 20 0 1 (.api "SlowDown" "retry")
    (by rw [partSizeBytes_20]; decide) (by rw [partSizeBytes_20]; decide)
    (by rw [h3, List.length_replicate, ceilDiv_45_20]; decide)
    (fileAccepts_rejectIf _ _ _ 1 _ 1 (by intro i hi; interval_cases i; decide))
    (by simp only [rejectIf]; decide)

/-- C2 witness: when `UploadPart` fails for part 2, the store sees the initiate, parts 1
and 2 and one abort, and `multipartUpload` returns an error. -/
theorem multipartUpload_failed_part_witness :
    (∃ e ∈ part2Fails.trace, isFailedUploadPart e = true)
    ∧ ∃ (uploadID : String) (done : List Event) (body : List Byte) (err : GoError)
        (ab : Option GoError),
      storeCalls part2Fails.trace = .CreateMultipartUpload "bucket" "key" (.ok uploadID)
        :: (done ++
          [.UploadPart "bucket" "key" (int32 (1 + done.length)) uploadID body (.error err),
           .AbortMultipartUpload "bucket" "key" uploadID ab])
      ∧ (∀ (i : Nat) (e : Event), done[i]? = some e →
          ∃ body etag, e = .UploadPart "bucket" "key" (int32 (1 + i)) uploadID body (.ok etag))
      ∧ (done.length + 1 < 2147483648 →
          uploadPartNumbers part2Fails.trace =
            (List.range' 1 (done.length + 1)).map (fun (i : Nat) => (i : Int)))
      ∧ (part2Fails.outcome = .returned (some err)
          ∨ ∃ msg, part2Fails.outcome = .returned (some (.wrapped msg err))) := by
  have hfail : ∃ e ∈ part2Fails.trace, isFailedUploadPart e = true := by
    rw [part2Fails_eq]
    exact ⟨_, List.mem_cons_of_mem _ (List.mem_cons_of_mem _ (List.mem_append_right _
      (List.mem_cons_of_mem _ (List.mem_cons_self _ _)))), rfl⟩
  exact ⟨hfail, multipartUpload_failed_part _ _ _ _ _ _ _ part2Fails (Or.inl rfl) hfail⟩

theorem int32_wrap : int32 (1 + ((2147483647 : Nat) : Int)) = -2147483648 := by decide

theorem multipartUpload_reject_of_length (data : List Byte)
    (hS : data.length = 2251799813685248) :
    (∃ e ∈ (MultipartMas.multipartUpload (fileWorld "id" rejectNegative) data
        "test-bigfile.bin" "bucket" "key" 1 (2147483647 + (0 + 1))).trace,
      isFailedUploadPart e = true)
    ∧ (-2147483648 : Int) ∈ uploadPartNumbers
        (MultipartMas.multipartUpload (fileWorld "id" rejectNegative) data
          "test-bigfile.bin" "bucket" "key" 1 (2147483647 + (0 + 1))).trace := by
  have hP : (partSizeBytes 1).toNat = 1048576 := by rw [partSizeBytes_1]; rfl
  have hn : ceilDiv data.length (partSizeBytes 1).toNat = 2147483648 := by
    rw [hS, hP, ceilDiv_2PiB]
  have hrun := MultipartMas.multipartUpload_fileWorld_reject "id" rejectNegative data
    "test-bigfile.bin" "bucket" "key" 1 0 2147483647 (.api "InvalidArgument" "part number")
    (by rw [partSizeBytes_1]; decide) (by rw [partSizeBytes_1]; decide) (by rw [hn]; decide)
    (fileAccepts_rejectIf _ _ _ _ _ _ (by
      intro i hi
      rw [int32_of_lt _ (by omega) (by omega)]
      exact decide_eq_false (by omega)))
    (by rw [int32_wrap]; rfl)
  rw [hrun]
  refine ⟨⟨_, List.mem_cons_of_mem _ (List.mem_cons_of_mem _ (List.mem_append_right _
    (List.mem_cons_of_mem _ (List.mem_cons_self _ _)))), rfl⟩, ?_⟩
  simp only [uploadPartNumbers, List.filterMap_cons, List.filterMap_append, List.mem_append]
  right
  rw [int32_wrap]
  exact List.mem_cons_self _ _

/-- C2 (counterexample to the claim as stated). On a source of `2^51` bytes uploaded in
parts of 1 MB, with a store that rejects negative part numbers, the `UploadPart` call
number `2^31` fails: it carries the part number `int32(2147483648) = -2147483648`, so the
part numbers that the store sees are not `1, ..., k` for any `k`. -/
theorem multipartUpload_failed_part_wrap :
    (∃ e ∈ (MultipartMas.multipartUpload (fileWorld "id" rejectNegative)
        (List.replicate 2251799813685248 0) "test-bigfile.bin" "bucket" "key" 1
        (2147483647 + (0 + 1))).trace,
      isFailedUploadPart e = true)
    ∧ ¬ ∃ k : Nat, uploadPartNumbers
        (MultipartMas.multipartUpload (fileWorld "id" rejectNegative)
          (List.replicate 2251799813685248 0) "test-bigfile.bin" "bucket" "key" 1
          (2147483647 + (0 + 1))).trace
        = (List.range' 1 k).map (fun (i : Nat) => (i : Int)) := by
  obtain ⟨h1, h2⟩ := multipartUpload_reject_of_length (List.replicate 2251799813685248 0)
    (List.length_replicate _ _)
  refine ⟨h1, ?_⟩
  rintro ⟨k, hk⟩
  exact not_mem_map_cast _ (hk ▸ h2)

/-! ## Which events a run can contain -/

/-- The loop only reads, uploads parts of its session and aborts its session. -/
theorem LoopShape.events {pol : LoopPolicy} {bucket key uploadID : String}
    {partNumber : Int} {completedParts : List CompletedPart} {exit : LoopExit}
    {tr : List Event}
    (h : LoopShape pol bucket key uploadID partNumber completedParts exit tr) :
    ∀ e ∈ tr, (∃ n err, e = .Read n err)
      ∨ (∃ pn body res, e = .UploadPart bucket key pn uploadID body res)
      ∨ (∃ ab, e = .AbortMultipartUpload bucket key uploadID ab) := by
  induction h with
  | unfinished => intro e he; simp at he
  | stop _ _ n err =>
    intro e he
    simp only [List.mem_singleton] at he
    exact Or.inl ⟨n, err, he⟩
  | readFail _ _ n err =>
    intro e he
    simp only [List.mem_singleton] at he
    exact Or.inl ⟨n, _, he⟩
  | uploadFail _ _ n rerr body err ab =>
    intro e he
    simp only [List.mem_cons, List.mem_singleton, List.not_mem_nil, or_false] at he
    rcases he with rfl | rfl | rfl
    · exact Or.inl ⟨_, _, rfl⟩
    · exact Or.inr (Or.inl ⟨_, _, _, rfl⟩)
    · exact Or.inr (Or.inr ⟨_, rfl⟩)
  | round _ _ n rerr body etag exit tr _ _ _ ih =>
    intro e he
    simp only [List.mem_cons] at he
    rcases he with rfl | rfl | he
    · exact Or.inl ⟨_, _, rfl⟩
    · exact Or.inr (Or.inl ⟨_, _, _, rfl⟩)
    · exact ih e he

theorem LoopShape.loop_filter_isDelete {pol : LoopPolicy} {bucket key uploadID : String}
    {partNumber : Int} {completedParts : List CompletedPart} {exit : LoopExit}
    {tr : List Event}
    (h : LoopShape pol bucket key uploadID partNumber completedParts exit tr) :
    tr.filter isDelete = [] := by
  rw [List.filter_eq_nil_iff]
  intro e he
  rcases h.events e he with ⟨_, _, rfl⟩ | ⟨_, _, _, rfl⟩ | ⟨_, rfl⟩ <;> simp [isDelete]

theorem LoopShape.filter_isComplete {pol : LoopPolicy} {bucket key uploadID : String}
    {partNumber : Int} {completedParts : List CompletedPart} {exit : LoopExit}
    {tr : List Event}
    (h : LoopShape pol bucket key uploadID partNumber completedParts exit tr) :
    tr.filter isComplete = [] := by
  rw [List.filter_eq_nil_iff]
  intro e he
  rcases h.events e he with ⟨_, _, rfl⟩ | ⟨_, _, _, rfl⟩ | ⟨_, rfl⟩ <;> simp [isComplete]

theorem LoopShape.loop_target {pol : LoopPolicy} {bucket key uploadID : String}
    {partNumber : Int} {completedParts : List CompletedPart} {exit : LoopExit}
    {tr : List Event}
    (h : LoopShape pol bucket key uploadID partNumber completedParts exit tr) :
    ∀ e ∈ tr, e.target = none ∨ e.target = some (bucket, key) := by
  intro e he
  rcases h.events e he with ⟨_, _, rfl⟩ | ⟨_, _, _, rfl⟩ | ⟨_, rfl⟩ <;> simp [Event.target]

/-- The upload phase issues no `DeleteObject` call. -/
theorem UploadShape.filter_isDelete {pol : LoopPolicy} {filePath bucket key : String}
    {outcome : Outcome} {tr : List Event}
    (h : UploadShape pol filePath bucket key outcome tr) : tr.filter isDelete = [] := by
  cases h with
  | openFail => rfl
  | createFail => rfl
  | panicked => rfl
  | unfinished _ _ hl => simp [List.filter_cons, isDelete, hl.loop_filter_isDelete]
  | loopFail _ _ _ hl => simp [List.filter_cons, isDelete, hl.loop_filter_isDelete]
  | complete _ _ _ _ hl =>
    simp [List.filter_cons, List.filter_append, isDelete, hl.loop_filter_isDelete]

/-- Every store call of the upload phase is for the bucket and key of the upload. -/
theorem UploadShape.target {pol : LoopPolicy} {filePath bucket key : String}
    {outcome : Outcome} {tr : List Event}
    (h : UploadShape pol filePath bucket key outcome tr) :
    ∀ e ∈ tr, e.target = none ∨ e.target = some (bucket, key) := by
  intro e he
  cases h with
  | openFail =>
    simp only [List.mem_singleton] at he
    subst he; exact Or.inl rfl
  | createFail =>
    simp only [List.mem_cons, List.mem_singleton, List.not_mem_nil, or_false] at he
    rcases he with rfl | rfl
    · exact Or.inl rfl
    · exact Or.inr rfl
  | panicked =>
    simp only [List.mem_cons, List.mem_singleton, List.not_mem_nil, or_false] at he
    rcases he with rfl | rfl
    · exact Or.inl rfl
    · exact Or.inr rfl
  | unfinished _ _ hl =>
    simp only [List.mem_cons] at he
    rcases he with rfl | rfl | he
    · exact Or.inl rfl
    · exact Or.inr rfl
    · exact hl.loop_target e he
  | loopFail _ _ _ hl =>
    simp only [List.mem_cons] at he
    rcases he with rfl | rfl | he
    · exact Or.inl rfl
    · exact Or.inr rfl
    · exact hl.loop_target e he
  | complete _ _ _ _ hl =>
    simp only [List.mem_cons, List.mem_append, List.mem_singleton, List.not_mem_nil,
      or_false] at he
    rcases he with rfl | rfl | he | rfl
    · exact Or.inl rfl
    · exact Or.inr rfl
    · exact hl.loop_target e he
    · exact Or.inr rfl

/-- The upload phase returns without error exactly when it issues a
`CompleteMultipartUpload` call that succeeds. -/
theorem UploadShape.returned_none_iff {pol : LoopPolicy} {filePath bucket key : String}
    {outcome : Outcome} {tr : List Event}
    (h : UploadShape pol filePath bucket key outcome tr) :
    outcome = .returned none ↔ ∃ e ∈ tr, isCompleteOk e = true := by
  cases h with
  | openFail => simp [isCompleteOk]
  | createFail => simp [isCompleteOk]
  | panicked => simp [isCompleteOk]
  | unfinished _ tr hl =>
    simp only [reduceCtorEq, false_iff, not_exists, not_and]
    intro e he
    simp only [List.mem_cons] at he
    rcases he with rfl | rfl | he
    · simp [isCompleteOk]
    · simp [isCompleteOk]
    · rcases hl.events e he with ⟨_, _, rfl⟩ | ⟨_, _, _, rfl⟩ | ⟨_, rfl⟩ <;> simp [isCompleteOk]
  | loopFail _ _ tr hl =>
    simp only [Outcome.returned.injEq, reduceCtorEq, false_iff, not_exists, not_and]
    intro e he
    simp only [List.mem_cons] at he
    rcases he with rfl | rfl | he
    · simp [isCompleteOk]
    · simp [isCompleteOk]
    · rcases hl.events e he with ⟨_, _, rfl⟩ | ⟨_, _, _, rfl⟩ | ⟨_, rfl⟩ <;> simp [isCompleteOk]
  | complete uploadID parts tr err hl =>
    constructor
    · intro h
      simp only [Outcome.returned.injEq] at h
      subst h
      exact ⟨_, List.mem_cons_of_mem _ (List.mem_cons_of_mem _ (List.mem_append_right _
        (List.mem_singleton_self _))), rfl⟩
    · rintro ⟨e, he, hc⟩
      simp only [List.mem_cons, List.mem_append, List.mem_singleton, List.not_mem_nil,
        or_false] at he
      rcases he with rfl | rfl | he | rfl
      · simp [isCompleteOk] at hc
      · simp [isCompleteOk] at hc
      · rcases hl.events e he with ⟨_, _, rfl⟩ | ⟨_, _, _, rfl⟩ | ⟨_, rfl⟩ <;>
          simp [isCompleteOk] at hc
      · cases err with
        | none => rfl
        | some _ => simp [isCompleteOk] at hc

/-- The trace of a transfer task: the upload phase, followed by one `DeleteObject` call
exactly when the upload phase returned without error. -/
theorem UploadShape.delete_after {pol : LoopPolicy} {filePath bucket key : String}
    {outcome : Outcome} {tr : List Event}
    (h : UploadShape pol filePath bucket key outcome tr) (tr' : List Event)
    (htr : (outcome = .returned none ∧ ∃ res, tr' = tr ++ [.DeleteObject bucket key res])
      ∨ (outcome ≠ .returned none ∧ tr' = tr)) :
    (∀ e ∈ tr', e.target = none ∨ e.target = some (bucket, key))
    ∧ ((∃ e ∈ tr', isCompleteOk e = true) →
        ∃ res, tr'.filter isDelete = [.DeleteObject bucket key res])
    ∧ ((¬ ∃ e ∈ tr', isCompleteOk e = true) → tr'.filter isDelete = []) := by
  rcases htr with ⟨hout, res, rfl⟩ | ⟨hout, rfl⟩
  · refine ⟨?_, ?_, ?_⟩
    · intro e he
      simp only [List.mem_append, List.mem_singleton] at he
      rcases he with he | rfl
      · exact h.target e he
      · exact Or.inr rfl
    · intro _
      exact ⟨res, by simp [List.filter_append, h.filter_isDelete, isDelete]⟩
    · intro hno
      exfalso
      obtain ⟨e, he, hc⟩ := h.returned_none_iff.mp hout
      exact hno ⟨e, List.mem_append_left _ he, hc⟩
  · refine ⟨h.target, ?_, fun _ => h.filter_isDelete⟩
    intro hc
    exact absurd (h.returned_none_iff.mpr hc) hout

/-- C3. In every run of `uploadOneFile` (either variant, any world), every store call is
for the given bucket and the generated object key; if the multipart upload succeeds (a
`CompleteMultipartUpload` call returns success) then exactly one `DeleteObject` call is
issued, for that bucket and that key; otherwise no `DeleteObject` call is issued. -/
theorem uploadOneFile_delete {σ : Type} (env : World σ) (w : σ) (iteration : Int)
    (filePath bucket : String) (partSizeMB idx : Int) (fuel : Nat) (run : Run σ) (key : String)
    (hrun : (run = MultipartMas.uploadOneFile env w iteration filePath bucket partSizeMB idx fuel
        ∧ key = objectKey iteration idx (String.mk (MultipartMas.randomString env 6 w).1))
      ∨ (run = MultipartMasCopy.uploadOneFile env w iteration filePath bucket partSizeMB idx
          fuel
        ∧ key = objectKey iteration idx (String.mk (MultipartMasCopy.randSuffix env 6 w).1))) :
    (∀ e ∈ run.trace, e.target = none ∨ e.target = some (bucket, key))
    ∧ ((∃ e ∈ run.trace, isCompleteOk e = true) →
        ∃ res, run.trace.filter isDelete = [.DeleteObject bucket key res])
    ∧ ((¬ ∃ e ∈ run.trace, isCompleteOk e = true) → run.trace.filter isDelete = []) := by
  rcases hrun with ⟨rfl, rfl⟩ | ⟨rfl, rfl⟩
  · have hs := MultipartMas.multipartUpload_shape env (MultipartMas.randomString env 6 w).2
      filePath bucket
      (objectKey iteration idx (String.mk (MultipartMas.randomString env 6 w).1)) partSizeMB fuel
    apply hs.delete_after
    simp only [MultipartMas.uploadOneFile]
    cases hout : (MultipartMas.multipartUpload env (MultipartMas.randomString env 6 w).2
      filePath bucket (objectKey iteration idx (String.mk (MultipartMas.randomString env 6 w).1))
      partSizeMB fuel).outcome with
    | returned err =>
      cases err with
      | none => exact Or.inl ⟨rfl, _, rfl⟩
      | some err => exact Or.inr ⟨by simp, rfl⟩
    | panicked => exact Or.inr ⟨by simp, rfl⟩
    | unfinished => exact Or.inr ⟨by simp, rfl⟩
  · have hs := MultipartMasCopy.multipartUpload_shape_copy env
      (MultipartMasCopy.randSuffix env 6 w).2 filePath bucket
      (objectKey iteration idx (String.mk (MultipartMasCopy.randSuffix env 6 w).1)) partSizeMB
      fuel
    apply hs.delete_after
    simp only [MultipartMasCopy.uploadOneFile]
    cases hout : (MultipartMasCopy.multipartUpload env (MultipartMasCopy.randSuffix env 6 w).2
      filePath bucket
      (objectKey iteration idx (String.mk (MultipartMasCopy.randSuffix env 6 w).1))
      partSizeMB fuel).outcome with
    | returned err =>
      cases err with
      | none => exact Or.inl ⟨rfl, _, rfl⟩
      | some err => exact Or.inr ⟨by simp, rfl⟩
    | panicked => exact Or.inr ⟨by simp, rfl⟩
    | unfinished => exact Or.inr ⟨by simp, rfl⟩

theorem fileWorld_Delete (uploadId : String) (respond : Int → List Byte → Except GoError String)
    (w : List Byte) (bucket key : String) :
    (fileWorld uploadId respond).DeleteObject w bucket key = (none, w) := rfl

theorem MultipartMas.randomString_fileWorld (uploadId : String)
    (respond : Int → List Byte → Except GoError String) (w : List Byte) :
    MultipartMas.randomString (fileWorld uploadId respond) 6 w = ("aaaaaa".toList, w) := rfl

theorem MultipartMasCopy.randSuffix_fileWorld (uploadId : String)
    (respond : Int → List Byte → Except GoError String) (w : List Byte) :
    MultipartMasCopy.randSuffix (fileWorld uploadId respond) 6 w = ("aaaaaa".toList, w) := rfl

/-- The run of `uploadOneFile` on a regular file whose parts the store accepts. -/
theorem MultipartMas.uploadOneFile_fileWorld (uid : String) (etag : Int → List Byte → String)
    (data : List Byte) (iteration : Int) (filePath bucket : String) (partSizeMB idx : Int)
    (fuel : Nat) (hP : 0 < partSizeBytes partSizeMB) (hmax : partSizeBytes partSizeMB ≤ maxAlloc)
    (hfuel : ceilDiv data.length (partSizeBytes partSizeMB).toNat < fuel) :
    MultipartMas.uploadOneFile (fileWorld uid (accept etag)) data iteration filePath bucket
        partSizeMB idx fuel =
      { outcome := .returned none
        trace := (.Open filePath none
          :: .CreateMultipartUpload bucket (objectKey iteration idx "aaaaaa") (.ok uid)
          :: (fileRounds bucket (objectKey iteration idx "aaaaaa") uid (accept etag)
                (partSizeBytes partSizeMB).toNat
                (ceilDiv data.length (partSizeBytes partSizeMB).toNat) data 1
              ++ [.Read 0 (some GoError.EOF),
                  .CompleteMultipartUpload bucket (objectKey iteration idx "aaaaaa") uid
                    (fileParts (accept etag) (partSizeBytes partSizeMB).toNat
                      (ceilDiv data.length (partSizeBytes partSizeMB).toNat) data 1) none]))
          ++ [.DeleteObject bucket (objectKey iteration idx "aaaaaa") none]
        world := [] } := by
  simp only [MultipartMas.uploadOneFile, MultipartMas.randomString_fileWorld,
    MultipartMas.multipartUpload_fileWorld uid (accept etag) data filePath bucket _ partSizeMB
      fuel hP hmax hfuel (fileAccepts_accept etag _ _ _ _), fileWorld_Delete]
  rfl

/-- The run of `uploadOneFile` (copy) on a regular file whose parts the store accepts. -/
theorem MultipartMasCopy.uploadOneFile_fileWorld_copy (uid : String)
    (etag : Int → List Byte → String)
    (data : List Byte) (iteration : Int) (filePath bucket : String) (partSizeMB idx : Int)
    (fuel : Nat) (hP : 0 < partSizeBytes partSizeMB) (hmax : partSizeBytes partSizeMB ≤ maxAlloc)
    (hfuel : ceilDiv data.length (partSizeBytes partSizeMB).toNat < fuel) :
    MultipartMasCopy.uploadOneFile (fileWorld uid (accept etag)) data iteration filePath bucket
        partSizeMB idx fuel =
      { outcome := .returned none
        trace := (.Open filePath none
          :: .CreateMultipartUpload bucket (objectKey iteration idx "aaaaaa") (.ok uid)
          :: (fileRounds bucket (objectKey iteration idx "aaaaaa") uid (accept etag)
                (partSizeBytes partSizeMB).toNat
                (ceilDiv data.length (partSizeBytes partSizeMB).toNat) data 1
              ++ [.Read 0 (some GoError.EOF),
                  .CompleteMultipartUpload bucket (objectKey iteration idx "aaaaaa") uid
                    (fileParts (accept etag) (partSizeBytes partSizeMB).toNat
                      (ceilDiv data.length (partSizeBytes partSizeMB).toNat) data 1) none]))
          ++ [.DeleteObject bucket (objectKey iteration idx "aaaaaa") none]
        world := [] } := by
  simp only [MultipartMasCopy.uploadOneFile, MultipartMasCopy.randSuffix_fileWorld,
    MultipartMasCopy.multipartUpload_fileWorld_copy uid (accept etag) data filePath bucket _
      partSizeMB fuel hP hmax hfuel (fileAccepts_accept etag _ _ _ _), fileWorld_Delete]
  rfl

theorem task45_eq :
    task45 =
      { outcome := .returned none
        trace := (.Open "test-bigfile.bin" none
          :: .CreateMultipartUpload "bucket" (objectKey 1 1 "aaaaaa") (.ok "id")
          :: (fileRounds "bucket" (objectKey 1 1 "aaaaaa") "id" (accept fun _ _ => "etag")
                (partSizeBytes 20).toNat
                (ceilDiv (List.replicate 47185920 (0 : Byte)).length (partSizeBytes 20).toNat)
                (List.replicate 47185920 0) 1
              ++ [.Read 0 (some GoError.EOF),
                  .CompleteMultipartUpload "bucket" (objectKey 1 1 "aaaaaa") "id"
                    (fileParts (accept fun _ _ => "etag") (partSizeBytes 20).toNat
                      (ceilDiv (List.replicate 47185920 (0 : Byte)).length
                        (partSizeBytes 20).toNat)
                      (List.replicate 47185920 0) 1) none]))
          ++ [.DeleteObject "bucket" (objectKey 1 1 "aaaaaa") none]
        world := [] } := by
  have h3 : (partSizeBytes 20).toNat = 20971520 := by rw [partSizeBytes_20]; rfl
  exact MultipartMas.uploadOneFile_fileWorld "id" (fun _ _ => "etag")
    (List.replicate 47185920 0) 1 "test-bigfile.bin" "bucket" 20 1 4
    (by rw [partSizeBytes_20]; decide) (by rw [partSizeBytes_20]; decide)
    (by rw [h3, List.length_replicate, ceilDiv_45_20]; decide)

/-- C3 witness: a successful transfer task issues exactly one `DeleteObject` call, for the
bucket and key of the upload. -/
theorem uploadOneFile_delete_witness :
    (∃ e ∈ task45.trace, isCompleteOk e = true)
    ∧ ∃ res, task45.trace.filter isDelete
        = [.DeleteObject "bucket" "test-bigfile-1-1-aaaaaa.bin" res] := by
  have hc : ∃ e ∈ task45.trace, isCompleteOk e = true := by
    rw [task45_eq]
    exact ⟨_, List.mem_append_left _ (List.mem_cons_of_mem _ (List.mem_cons_of_mem _
      (List.mem_append_right _ (List.mem_cons_of_mem _ (List.mem_cons_self _ _))))), rfl⟩
  exact ⟨hc, (uploadOneFile_delete (fileWorld "id" (accept fun _ _ => "etag"))
    (List.replicate 47185920 0) 1 "test-bigfile.bin" "bucket" 20 1 4 task45
    "test-bigfile-1-1-aaaaaa.bin" (Or.inl ⟨rfl, by decide⟩)).2.1 hc⟩

/-! ## Sizes of the parts -/

theorem uploadBodies_run (filePath bucket key uid : String) (tr : List Event)
    (parts : List CompletedPart) (e1 e2 e3 : Option GoError) (r : Except GoError String) :
    uploadBodies (.Open filePath e1 :: .CreateMultipartUpload bucket key r
      :: (tr ++ [.Read 0 e2, .CompleteMultipartUpload bucket key uid parts e3])) =
      uploadBodies tr := by
  simp [uploadBodies, List.filterMap_cons, List.filterMap_append]

theorem lengths_fileRounds (bucket key uploadID : String)
    (respond : Int → List Byte → Except GoError String) (P : Nat) (hP : 0 < P) :
    ∀ (n : Nat) (data : List Byte) (partNumber : Int), ceilDiv data.length P = n →
      (uploadBodies (fileRounds bucket key uploadID respond P n data partNumber)).map
          List.length =
        List.replicate (n - 1) P
          ++ (if data.length = 0 then [] else [data.length - P * (n - 1)]) := by
  intro n
  induction n with
  | zero =>
    intro data partNumber h
    have h0 : data.length = 0 := by
      rcases Nat.eq_zero_or_pos data.length with h0 | h0
      · exact h0
      · rw [ceilDiv_step _ _ hP h0] at h; omega
    simp [fileRounds, uploadBodies, h0]
  | succ n ih =>
    intro data partNumber h
    have hS : 0 < data.length := ceilDiv_pos _ _ n hP (by omega)
    rw [ceilDiv_step _ _ hP hS] at h
    have hn : ceilDiv (data.drop P).length P = n := by rw [List.length_drop]; omega
    have ih' := ih (data.drop P) (partNumber + 1) hn
    rw [fileRounds]
    simp only [uploadBodies, List.filterMap_cons]
    rw [← uploadBodies, List.map_cons, ih', List.length_take, List.length_drop,
      if_neg (by omega : ¬ data.length = 0)]
    by_cases hle : data.length ≤ P
    · have hn0 : n = 0 := by
        have : data.length - P = 0 := by omega
        rw [this, ceilDiv_zero P hP] at h
        omega
      subst hn0
      simp only [Nat.zero_sub, List.replicate_zero, List.nil_append, Nat.mul_zero,
        Nat.add_sub_cancel, Nat.sub_zero]
      rw [if_pos (by omega), Nat.min_eq_right hle]
    · have hn1 : 1 ≤ n := by
        rcases Nat.eq_zero_or_pos n with h0 | h0
        · subst h0
          have h1 : 0 < data.length - P := by omega
          rw [ceilDiv_step _ _ hP h1] at h
          omega
        · exact h0
      obtain ⟨m, rfl⟩ : ∃ m, n = m + 1 := ⟨n - 1, by omega⟩
      simp only [Nat.add_sub_cancel]
      rw [if_neg (by omega), Nat.min_eq_left (by omega), List.replicate_succ,
        List.cons_append, Nat.mul_succ]
      congr 3
      omega

theorem ceilDiv_remainder (S P : Nat) (hP : 0 < P) (hS : 0 < S) :
    1 ≤ S - P * (ceilDiv S P - 1) ∧ S - P * (ceilDiv S P - 1) ≤ P := by
  have h1 := Nat.div_add_mod (S + P - 1) P
  have h2 := Nat.mod_lt (S + P - 1) hP
  have h3 : 1 ≤ ceilDiv S P := by rw [ceilDiv_step S P hP hS]; omega
  unfold ceilDiv at h3 ⊢
  obtain ⟨m, hm⟩ : ∃ m, (S + P - 1) / P = m + 1 := ⟨(S + P - 1) / P - 1, by omega⟩
  rw [hm] at h1 ⊢
  rw [Nat.mul_succ] at h1
  simp only [Nat.add_sub_cancel]
  constructor <;> omega

/-- C4. On a regular file of `S` bytes with a part size `P > 0`, when every read and every
store call succeeds, the bodies passed to `UploadPart` by both variants of
`multipartUpload` have exactly `P` bytes each, except the last one, which has the
remainder `S - P * (ceil(S/P) - 1)` bytes, a value between 1 and `P`; no call carries an
empty body. -/
theorem multipartUpload_part_sizes (uid : String) (etag : Int → List Byte → String)
    (data : List Byte) (filePath bucket key : String) (partSizeMB : Int) (fuel : Nat)
    (hP : 0 < partSizeBytes partSizeMB) (hmax : partSizeBytes partSizeMB ≤ maxAlloc)
    (hfuel : ceilDiv data.length (partSizeBytes partSizeMB).toNat < fuel)
    (run : Run (List Byte))
    (hrun : run = MultipartMas.multipartUpload (fileWorld uid (accept etag)) data filePath
        bucket key partSizeMB fuel
      ∨ run = MultipartMasCopy.multipartUpload (fileWorld uid (accept etag)) data filePath
        bucket key partSizeMB fuel) :
    run.outcome = .returned none
    ∧ (uploadBodies run.trace).map List.length =
        List.replicate (ceilDiv data.length (partSizeBytes partSizeMB).toNat - 1)
            (partSizeBytes partSizeMB).toNat
          ++ (if data.length = 0 then [] else
              [data.length - (partSizeBytes partSizeMB).toNat
                * (ceilDiv data.length (partSizeBytes partSizeMB).toNat - 1)])
    ∧ (0 < data.length →
        1 ≤ data.length - (partSizeBytes partSizeMB).toNat
            * (ceilDiv data.length (partSizeBytes partSizeMB).toNat - 1)
        ∧ data.length - (partSizeBytes partSizeMB).toNat
            * (ceilDiv data.length (partSizeBytes partSizeMB).toNat - 1)
          ≤ (partSizeBytes partSizeMB).toNat)
    ∧ ∀ body ∈ uploadBodies run.trace, body ≠ [] := by
  have hP' : 0 < (partSizeBytes partSizeMB).toNat := by omega
  have hrun' : run =
      { outcome := .returned none
        trace := .Open filePath none :: .CreateMultipartUpload bucket key (.ok uid)
          :: (fileRounds bucket key uid (accept etag) (partSizeBytes partSizeMB).toNat
                (ceilDiv data.length (partSizeBytes partSizeMB).toNat) data 1
              ++ [.Read 0 (some GoError.EOF),
                  .CompleteMultipartUpload bucket key uid
                    (fileParts (accept etag) (partSizeBytes partSizeMB).toNat
                      (ceilDiv data.length (partSizeBytes partSizeMB).toNat) data 1) none])
        world := [] } := by
    rcases hrun with h | h
    · rw [h]
      exact MultipartMas.multipartUpload_fileWorld uid _ data filePath bucket key partSizeMB
        fuel hP hmax hfuel (fileAccepts_accept etag _ _ _ _)
    · rw [h]
      exact MultipartMasCopy.multipartUpload_fileWorld_copy uid _ data filePath bucket key
        partSizeMB fuel hP hmax hfuel (fileAccepts_accept etag _ _ _ _)
  subst hrun'
  have hlen := lengths_fileRounds bucket key uid (accept etag) _ hP' _ data 1 rfl
  simp only [uploadBodies_run, true_and]
  refine ⟨hlen, fun hS => ceilDiv_remainder _ _ hP' hS, ?_⟩
  intro body hb hnil
  have hmem : body.length ∈ (uploadBodies (fileRounds bucket key uid (accept etag)
      (partSizeBytes partSizeMB).toNat (ceilDiv data.length (partSizeBytes partSizeMB).toNat)
      data 1)).map List.length := List.mem_map_of_mem _ hb
  rw [hlen, hnil, List.length_nil, List.mem_append] at hmem
  rcases hmem with hmem | hmem
  · have := (List.mem_replicate.mp hmem).2
    omega
  · by_cases hS : data.length = 0
    · rw [if_pos hS] at hmem
      simp at hmem
    · rw [if_neg hS, List.mem_singleton] at hmem
      have := (ceilDiv_remainder _ _ hP' (Nat.pos_of_ne_zero hS)).1
      omega

/-- C4 witness: a source of 45 MB with parts of 20 MB is uploaded in bodies of 20 MB,
20 MB and 5 MB. -/
theorem multipartUpload_part_sizes_witness :
    (uploadBodies (MultipartMas.multipartUpload (fileWorld "id" (accept fun _ _ => "etag"))
      (List.replicate 47185920 0) "test-bigfile.bin" "bucket" "key" 20 4).trace).map
        List.length = [20971520, 20971520, 5242880] := by
  have h := (multipartUpload_part_sizes "id" (fun _ _ => "etag") (List.replicate 47185920 0)
    "test-bigfile.bin" "bucket" "key" 20 4 (by rw [partSizeBytes_20]; decide) (by rw [partSizeBytes_20]; decide)
    (by rw [partSizeBytes_20, List.length_replicate]; decide) _ (Or.inl rfl)).2.1
  rw [partSizeBytes_20, List.length_replicate] at h
  have h3 : (20971520 : Int).toNat = 20971520 := rfl
  rw [h3, ceilDiv_45_20] at h
  rw [h]
  decide

/-! ## Read errors -/

/-- In `multipart_mas.go`, a read that fails with an error other than `io.EOF` ends the
loop with that error. -/
theorem loop_read_error_mas {bucket key uploadID : String}
    {partNumber : Int} {completedParts : List CompletedPart} {exit : LoopExit}
    {tr : List Event}
    (h : LoopShape MultipartMas.policy bucket key uploadID partNumber completedParts exit tr)
    (n : Nat) (err : GoError) (hmem : Event.Read n (some err) ∈ tr) (hne : err ≠ GoError.EOF) :
    exit = .ret err := by
  induction h with
  | unfinished => simp at hmem
  | stop _ _ m e hstop =>
    simp only [List.mem_singleton, Event.Read.injEq] at hmem
    obtain ⟨_, rfl⟩ := hmem
    rcases hstop.2 with h | h
    · simp at h
    · simp only [Option.some.injEq] at h
      exact absurd h hne
  | readFail _ _ m e _ =>
    simp only [List.mem_singleton, Event.Read.injEq, Option.some.injEq] at hmem
    rw [hmem.2]
  | uploadFail _ _ m rerr _ _ _ hgo =>
    simp only [List.mem_cons, Event.Read.injEq, reduceCtorEq, List.mem_singleton,
      List.not_mem_nil, or_false] at hmem
    obtain ⟨_, rfl⟩ := hmem
    rcases hgo.2 with h | h
    · simp at h
    · simp only [Option.some.injEq] at h
      exact absurd h hne
  | round _ _ m rerr _ _ _ _ hgo _ _ ih =>
    simp only [List.mem_cons, Event.Read.injEq, reduceCtorEq, false_or] at hmem
    rcases hmem with ⟨_, rfl⟩ | hmem
    · rcases hgo.2 with h | h
      · simp at h
      · simp only [Option.some.injEq] at h
        exact absurd h hne
    · exact ih hmem

/-- In every run of `multipartUpload` of `multipart_mas.go` (any world) in which a read
fails with an error other than `io.EOF`, whatever number of bytes it returned, the
function returns that error and issues no `CompleteMultipartUpload` call. -/
theorem MultipartMas.multipartUpload_read_error {σ : Type} (env : World σ) (w : σ)
    (filePath bucket key : String) (partSizeMB : Int) (fuel : Nat)
    (n : Nat) (err : GoError)
    (hmem : Event.Read n (some err)
      ∈ (MultipartMas.multipartUpload env w filePath bucket key partSizeMB fuel).trace)
    (hne : err ≠ GoError.EOF) :
    (MultipartMas.multipartUpload env w filePath bucket key partSizeMB fuel).outcome
      = .returned (some err)
    ∧ (MultipartMas.multipartUpload env w filePath bucket key partSizeMB fuel).trace.filter
        isComplete = [] := by
  have hs := MultipartMas.multipartUpload_shape env w filePath bucket key partSizeMB fuel
  revert hmem
  generalize (MultipartMas.multipartUpload env w filePath bucket key partSizeMB fuel).outcome
    = outcome at hs ⊢
  generalize (MultipartMas.multipartUpload env w filePath bucket key partSizeMB fuel).trace
    = tr at hs ⊢
  intro hmem
  cases hs with
  | openFail => simp at hmem
  | createFail => simp at hmem
  | panicked => simp at hmem
  | unfinished _ tr hl =>
    simp only [List.mem_cons, reduceCtorEq, false_or] at hmem
    have := loop_read_error_mas hl n err hmem hne
    simp at this
  | loopFail _ e tr hl =>
    simp only [List.mem_cons, reduceCtorEq, false_or] at hmem
    have := loop_read_error_mas hl n err hmem hne
    simp only [LoopExit.ret.injEq] at this
    subst this
    exact ⟨rfl, by simp [List.filter_cons, isComplete, hl.filter_isComplete]⟩
  | complete _ _ tr _ hl =>
    simp only [List.mem_cons, reduceCtorEq, false_or, List.mem_append, List.mem_singleton,
      List.not_mem_nil, or_false] at hmem
    have := loop_read_error_mas hl n err hmem hne
    simp at this

/-- The first iteration of the loop of `multipart_mas copy.go` when the read stores no
byte: the loop ends by `break`, whatever the error of the read. -/
theorem MultipartMasCopy.uploadLoop_read_zero {σ : Type} (env : World σ)
    (bucket key uploadID : String) (fuel : Nat) (w : σ) (buf : List Byte) (partNumber : Int)
    (completed : List CompletedPart) (h : (env.Read w buf.length).1.1 = []) :
    MultipartMasCopy.uploadLoop env bucket key uploadID (fuel + 1) w buf partNumber completed =
      { exit := .brk completed
        trace := [.Read 0 (env.Read w buf.length).1.2]
        world := (env.Read w buf.length).2 } := by
  rw [MultipartMasCopy.uploadLoop]
  simp [readInto, h]

/-- The first iteration of the loop of `multipart_mas.go` when the read fails with an
error other than `io.EOF`: the loop returns the error. -/
theorem MultipartMas.uploadLoop_read_fails {σ : Type} (env : World σ)
    (bucket key uploadID : String) (fuel : Nat) (w : σ) (buf : List Byte) (partNumber : Int)
    (completedParts : List CompletedPart) (err : GoError)
    (h : (env.Read w buf.length).1.2 = some err) (hne : err ≠ GoError.EOF) :
    MultipartMas.uploadLoop env bucket key uploadID (fuel + 1) w buf partNumber completedParts =
      { exit := .ret err
        trace := [.Read ((env.Read w buf.length).1.1.take buf.length).length (some err)]
        world := (env.Read w buf.length).2 } := by
  rw [MultipartMas.uploadLoop]
  have : notNilNotEOF (some err) = some err := by
    cases err <;> simp_all [notNilNotEOF]
  simp [readInto, h, this]

theorem scripted_Read (w : Script) (len : Nat) :
    scripted.Read w len
      = (w.reads.headD ([], some GoError.EOF), { w with reads := w.reads.tail }) := rfl

theorem scripted_Open (w : Script) (filePath : String) :
    scripted.Open w filePath = (w.openErr, w) := rfl

theorem scripted_Create (w : Script) (bucket key : String) :
    scripted.CreateMultipartUpload w bucket key = (w.create, w) := rfl

theorem scripted_Complete (w : Script) (bucket key uid : String) (parts : List CompletedPart) :
    scripted.CompleteMultipartUpload w bucket key uid parts = (w.complete, w) := rfl

theorem MultipartMasCopy.multipartUpload_readFails_copy (filePath bucket key : String)
    (partSizeMB : Int) (fuel : Nat) (hP : 0 < partSizeBytes partSizeMB) (hmax : partSizeBytes partSizeMB ≤ maxAlloc) :
    MultipartMasCopy.multipartUpload scripted readFails filePath bucket key partSizeMB
        (fuel + 1) =
      { outcome := .returned none
        trace := [.Open filePath none, .CreateMultipartUpload bucket key (.ok "id"),
          .Read 0 (some (.other "read test-bigfile.bin: input/output error")),
          .CompleteMultipartUpload bucket key "id" [] none]
        world := { readFails with reads := [] } } := by
  have hB := MultipartMasCopy.uploadLoop_read_zero scripted bucket key "id" fuel readFails
    (List.replicate (partSizeBytes partSizeMB).toNat 0) 1 [] rfl
  simp only [scripted_Read] at hB
  have h1 : readFails.openErr = none := rfl
  have h2 : readFails.create = .ok "id" := rfl
  simp only [MultipartMasCopy.multipartUpload, scripted_Open, scripted_Create,
    MultipartMasCopy.partSize_eq_copy, makeBuf_of_pos _ hP hmax, h1, h2, hB, completeUpload,
    scripted_Complete]
  rfl

theorem MultipartMas.multipartUpload_readFails (filePath bucket key : String)
    (partSizeMB : Int) (fuel : Nat) (hP : 0 < partSizeBytes partSizeMB) (hmax : partSizeBytes partSizeMB ≤ maxAlloc) :
    MultipartMas.multipartUpload scripted readFails filePath bucket key partSizeMB
        (fuel + 1) =
      { outcome := .returned (some (.other "read test-bigfile.bin: input/output error"))
        trace := [.Open filePath none, .CreateMultipartUpload bucket key (.ok "id"),
          .Read 0 (some (.other "read test-bigfile.bin: input/output error"))]
        world := { readFails with reads := [] } } := by
  have hA := MultipartMas.uploadLoop_read_fails scripted bucket key "id" fuel readFails
    (List.replicate (partSizeBytes partSizeMB).toNat 0) 1 []
    (.other "read test-bigfile.bin: input/output error") rfl (by simp)
  simp only [scripted_Read] at hA
  have h1 : readFails.openErr = none := rfl
  have h2 : readFails.create = .ok "id" := rfl
  have h3 : readFails.reads
      = [([], some (.other "read test-bigfile.bin: input/output error"))] := rfl
  simp only [MultipartMas.multipartUpload, scripted_Open, scripted_Create,
    MultipartMas.partSize_eq, makeBuf_of_pos _ hP hmax, makeCompletedParts_of_pos _ hP, h1, h2, hA, h3, List.headD_cons,
    List.take_nil, List.length_nil, List.tail_cons]

/-- C5 (failing input). When the first read fails with an input/output error and no byte,
`multipartUpload` of `multipart_mas copy.go` leaves the loop by `break`, completes the
upload with an empty list of parts and returns no error, whereas `multipartUpload` of
`multipart_mas.go` returns the read error and issues no complete call. -/
theorem multipartUpload_copy_read_error :
    (MultipartMasCopy.multipartUpload scripted readFails "test-bigfile.bin" "bucket" "key" 20
        1).outcome = .returned none
    ∧ (MultipartMasCopy.multipartUpload scripted readFails "test-bigfile.bin" "bucket" "key" 20
        1).trace =
      [.Open "test-bigfile.bin" none, .CreateMultipartUpload "bucket" "key" (.ok "id"),
       .Read 0 (some (.other "read test-bigfile.bin: input/output error")),
       .CompleteMultipartUpload "bucket" "key" "id" [] none]
    ∧ (MultipartMas.multipartUpload scripted readFails "test-bigfile.bin" "bucket" "key" 20
        1).outcome = .returned (some (.other "read test-bigfile.bin: input/output error"))
    ∧ (MultipartMas.multipartUpload scripted readFails "test-bigfile.bin" "bucket" "key" 20
        1).trace =
      [.Open "test-bigfile.bin" none, .CreateMultipartUpload "bucket" "key" (.ok "id"),
       .Read 0 (some (.other "read test-bigfile.bin: input/output error"))] := by
  have hP : (0 : Int) < partSizeBytes 20 := by rw [partSizeBytes_20]; decide
  have hmax : partSizeBytes 20 ≤ maxAlloc := by rw [partSizeBytes_20]; decide
  rw [MultipartMasCopy.multipartUpload_readFails_copy "test-bigfile.bin" "bucket" "key" 20 0 hP hmax,
    MultipartMas.multipartUpload_readFails "test-bigfile.bin" "bucket" "key" 20 0 hP hmax]
  exact ⟨rfl, rfl, rfl, rfl⟩

/-! ## Failures that are not followed by an abort -/

/-- The first iteration of the loop of `multipart_mas.go` when the read reports the end
of the input: the loop ends by `break`. -/
theorem MultipartMas.uploadLoop_read_eof {σ : Type} (env : World σ)
    (bucket key uploadID : String) (fuel : Nat) (w : σ) (buf : List Byte) (partNumber : Int)
    (completedParts : List CompletedPart)
    (h : (env.Read w buf.length).1 = ([], some GoError.EOF)) :
    MultipartMas.uploadLoop env bucket key uploadID (fuel + 1) w buf partNumber completedParts =
      { exit := .brk completedParts
        trace := [.Read 0 (some GoError.EOF)]
        world := (env.Read w buf.length).2 } := by
  rw [MultipartMas.uploadLoop]
  simp [readInto, h, notNilNotEOF]

theorem MultipartMas.multipartUpload_completeFails (filePath bucket key : String)
    (partSizeMB : Int) (fuel : Nat) (hP : 0 < partSizeBytes partSizeMB) (hmax : partSizeBytes partSizeMB ≤ maxAlloc) :
    MultipartMas.multipartUpload scripted completeFails filePath bucket key partSizeMB
        (fuel + 1) =
      { outcome := .returned (some (.api "MalformedXML" "you must specify at least one part"))
        trace := [.Open filePath none, .CreateMultipartUpload bucket key (.ok "id"),
          .Read 0 (some GoError.EOF),
          .CompleteMultipartUpload bucket key "id" []
            (some (.api "MalformedXML" "you must specify at least one part"))]
        world := completeFails } := by
  have hA := MultipartMas.uploadLoop_read_eof scripted bucket key "id" fuel completeFails
    (List.replicate (partSizeBytes partSizeMB).toNat 0) 1 [] rfl
  simp only [scripted_Read] at hA
  have h1 : completeFails.openErr = none := rfl
  have h2 : completeFails.create = .ok "id" := rfl
  simp only [MultipartMas.multipartUpload, scripted_Open, scripted_Create,
    MultipartMas.partSize_eq, makeBuf_of_pos _ hP hmax, makeCompletedParts_of_pos _ hP, h1, h2, hA, completeUpload,
    scripted_Complete]
  rfl

theorem MultipartMasCopy.multipartUpload_completeFails_copy (filePath bucket key : String)
    (partSizeMB : Int) (fuel : Nat) (hP : 0 < partSizeBytes partSizeMB) (hmax : partSizeBytes partSizeMB ≤ maxAlloc) :
    MultipartMasCopy.multipartUpload scripted completeFails filePath bucket key partSizeMB
        (fuel + 1) =
      { outcome := .returned (some (.api "MalformedXML" "you must specify at least one part"))
        trace := [.Open filePath none, .CreateMultipartUpload bucket key (.ok "id"),
          .Read 0 (some GoError.EOF),
          .CompleteMultipartUpload bucket key "id" []
            (some (.api "MalformedXML" "you must specify at least one part"))]
        world := completeFails } := by
  have hB := MultipartMasCopy.uploadLoop_read_zero scripted bucket key "id" fuel completeFails
    (List.replicate (partSizeBytes partSizeMB).toNat 0) 1 [] rfl
  simp only [scripted_Read] at hB
  have h1 : completeFails.openErr = none := rfl
  have h2 : completeFails.create = .ok "id" := rfl
  simp only [MultipartMasCopy.multipartUpload, scripted_Open, scripted_Create,
    MultipartMasCopy.partSize_eq_copy, makeBuf_of_pos _ hP hmax, h1, h2, hB, completeUpload,
    scripted_Complete]
  rfl

/-- C6 (failing inputs). After a successful initiate, when `CompleteMultipartUpload` fails
both variants of `multipartUpload` return the error without any `AbortMultipartUpload`
call, and when a read fails `multipartUpload` of `multipart_mas.go` returns the error
without any `AbortMultipartUpload` call: the session stays open at the store. -/
theorem multipartUpload_no_abort :
    (MultipartMas.multipartUpload scripted completeFails "test-bigfile.bin" "bucket" "key" 20
        1).outcome
      = .returned (some (.api "MalformedXML" "you must specify at least one part"))
    ∧ storeCalls (MultipartMas.multipartUpload scripted completeFails "test-bigfile.bin"
        "bucket" "key" 20 1).trace =
      [.CreateMultipartUpload "bucket" "key" (.ok "id"),
       .CompleteMultipartUpload "bucket" "key" "id" []
         (some (.api "MalformedXML" "you must specify at least one part"))]
    ∧ (MultipartMasCopy.multipartUpload scripted completeFails "test-bigfile.bin" "bucket" "key"
        20 1).outcome
      = .returned (some (.api "MalformedXML" "you must specify at least one part"))
    ∧ storeCalls (MultipartMasCopy.multipartUpload scripted completeFails "test-bigfile.bin"
        "bucket" "key" 20 1).trace =
      [.CreateMultipartUpload "bucket" "key" (.ok "id"),
       .CompleteMultipartUpload "bucket" "key" "id" []
         (some (.api "MalformedXML" "you must specify at least one part"))]
    ∧ (MultipartMas.multipartUpload scripted readFails "test-bigfile.bin" "bucket" "key" 20
        1).outcome = .returned (some (.other "read test-bigfile.bin: input/output error"))
    ∧ storeCalls (MultipartMas.multipartUpload scripted readFails "test-bigfile.bin" "bucket"
        "key" 20 1).trace = [.CreateMultipartUpload "bucket" "key" (.ok "id")] := by
  have hP : (0 : Int) < partSizeBytes 20 := by rw [partSizeBytes_20]; decide
  have hmax : partSizeBytes 20 ≤ maxAlloc := by rw [partSizeBytes_20]; decide
  rw [MultipartMas.multipartUpload_completeFails "test-bigfile.bin" "bucket" "key" 20 0 hP hmax,
    MultipartMasCopy.multipartUpload_completeFails_copy "test-bigfile.bin" "bucket" "key" 20 0
      hP hmax,
    MultipartMas.multipartUpload_readFails "test-bigfile.bin" "bucket" "key" 20 0 hP hmax]
  exact ⟨rfl, by decide, rfl, by decide, rfl, by decide⟩

/-! ## Object keys -/

theorem digitVal_digitChar (d : Nat) (h : d < 10) : digitVal (Nat.digitChar d) = d := by
  interval_cases d <;> rfl

theorem digitChar_ne_minus (d : Nat) (h : d < 10) : Nat.digitChar d ≠ '-' := by
  interval_cases d <;> decide

theorem toDigitsCore_append (fuel : Nat) :
    ∀ (n : Nat) (ds : List Char),
      Nat.toDigitsCore 10 fuel n ds = Nat.toDigitsCore 10 fuel n [] ++ ds := by
  induction fuel with
  | zero => intro n ds; rfl
  | succ fuel ih =>
    intro n ds
    simp only [Nat.toDigitsCore]
    by_cases h : n / 10 = 0
    · simp [h]
    · simp only [h, if_false]
      rw [ih (n / 10) (Nat.digitChar (n % 10) :: ds), ih (n / 10) [Nat.digitChar (n % 10)]]
      simp

theorem ofDigitChars_append_singleton (l : List Char) (c : Char) :
    ofDigitChars (l ++ [c]) = 10 * ofDigitChars l + digitVal c := by
  simp [ofDigitChars, List.foldl_append]

theorem ofDigitChars_toDigitsCore (fuel : Nat) :
    ∀ n : Nat, n < fuel → ofDigitChars (Nat.toDigitsCore 10 fuel n []) = n := by
  induction fuel with
  | zero => intro n h; omega
  | succ fuel ih =>
    intro n hn
    simp only [Nat.toDigitsCore]
    by_cases h : n / 10 = 0
    · simp only [h, if_true]
      have hlt : n < 10 := by omega
      have : n % 10 = n := Nat.mod_eq_of_lt hlt
      rw [this]
      simp [ofDigitChars, digitVal_digitChar n hlt]
    · simp only [h, if_false]
      rw [toDigitsCore_append, ofDigitChars_append_singleton, ih (n / 10) (by omega),
        digitVal_digitChar _ (Nat.mod_lt n (by decide))]
      omega

theorem toDigitsCore_digits (fuel : Nat) :
    ∀ (n : Nat) (c : Char), c ∈ Nat.toDigitsCore 10 fuel n [] → ∃ d, d < 10 ∧ c = Nat.digitChar d := by
  induction fuel with
  | zero => intro n c h; simp [Nat.toDigitsCore] at h
  | succ fuel ih =>
    intro n c hc
    simp only [Nat.toDigitsCore] at hc
    by_cases h : n / 10 = 0
    · simp only [h, if_true, List.mem_singleton] at hc
      exact ⟨n % 10, Nat.mod_lt n (by decide), hc⟩
    · simp only [h, if_false] at hc
      rw [toDigitsCore_append, List.mem_append, List.mem_singleton] at hc
      rcases hc with hc | hc
      · exact ih _ c hc
      · exact ⟨n % 10, Nat.mod_lt n (by decide), hc⟩

theorem toDigits_injective (n m : Nat) (h : Nat.toDigits 10 n = Nat.toDigits 10 m) : n = m := by
  have hn := ofDigitChars_toDigitsCore (n + 1) n (by omega)
  have hm := ofDigitChars_toDigitsCore (m + 1) m (by omega)
  unfold Nat.toDigits at h
  rw [h, hm] at hn
  exact hn.symm

theorem minus_not_mem_toDigits (n : Nat) : '-' ∉ Nat.toDigits 10 n := by
  intro h
  obtain ⟨d, hd, hc⟩ := toDigitsCore_digits _ _ _ h
  exact digitChar_ne_minus d hd hc.symm

theorem toDigits_ne_nil (n : Nat) : Nat.toDigits 10 n ≠ [] := by
  unfold Nat.toDigits
  simp only [Nat.toDigitsCore]
  by_cases h : n / 10 = 0
  · simp [h]
  · simp only [h, if_false]
    rw [toDigitsCore_append]
    simp

theorem formatD_data (i : Int) :
    (formatD i).data =
      if i < 0 then '-' :: Nat.toDigits 10 i.natAbs else Nat.toDigits 10 i.toNat := by
  unfold formatD
  by_cases h : i < 0
  · simp only [h, if_true, String.data_append]
    rfl
  · simp only [h, if_false]
    rfl

theorem formatD_injective (i j : Int) (h : formatD i = formatD j) : i = j := by
  have hd := congrArg String.data h
  rw [formatD_data, formatD_data] at hd
  by_cases hi : i < 0 <;> by_cases hj : j < 0
  · simp only [hi, hj, if_true, List.cons.injEq, true_and] at hd
    have := toDigits_injective _ _ hd
    omega
  · simp only [hi, hj, if_true, if_false] at hd
    exact absurd (hd ▸ List.mem_cons_self _ _) (minus_not_mem_toDigits _)
  · simp only [hi, hj, if_true, if_false] at hd
    exact absurd (hd.symm ▸ List.mem_cons_self _ _) (minus_not_mem_toDigits _)
  · simp only [hi, hj, if_false] at hd
    have := toDigits_injective _ _ hd
    omega

/-- Two lists cut at the first occurrence of `c` agree part by part. -/
theorem append_cons_inj_of_not_mem {c : Char} :
    ∀ (l₁ l₂ r₁ r₂ : List Char), c ∉ l₁ → c ∉ l₂ → l₁ ++ c :: r₁ = l₂ ++ c :: r₂ →
      l₁ = l₂ ∧ r₁ = r₂ := by
  intro l₁
  induction l₁ with
  | nil =>
    intro l₂ r₁ r₂ _ h2 h
    cases l₂ with
    | nil => simp at h; exact ⟨rfl, h⟩
    | cons a l₂ =>
      simp only [List.nil_append, List.cons_append, List.cons.injEq] at h
      exact absurd (h.1 ▸ List.mem_cons_self _ _) h2
  | cons a l₁ ih =>
    intro l₂ r₁ r₂ h1 h2 h
    cases l₂ with
    | nil =>
      simp only [List.nil_append, List.cons_append, List.cons.injEq] at h
      exact absurd (h.1 ▸ List.mem_cons_self _ _) h1
    | cons b l₂ =>
      simp only [List.cons_append, List.cons.injEq] at h
      obtain ⟨hl, hr⟩ := ih l₂ r₁ r₂ (fun hc => h1 (List.mem_cons_of_mem _ hc))
        (fun hc => h2 (List.mem_cons_of_mem _ hc)) h.2
      exact ⟨by rw [h.1, hl], hr⟩

/-- A formatted integer followed by `-` can be read back: two such texts that agree come
from the same integer and have the same rest. -/
theorem formatD_sep (a b : Int) (r₁ r₂ : List Char)
    (h : (formatD a).data ++ '-' :: r₁ = (formatD b).data ++ '-' :: r₂) : a = b ∧ r₁ = r₂ := by
  rw [formatD_data, formatD_data] at h
  by_cases ha : a < 0 <;> by_cases hb : b < 0
  · simp only [ha, hb, if_true, List.cons_append, List.cons.injEq, true_and] at h
    obtain ⟨hd, hr⟩ := append_cons_inj_of_not_mem _ _ _ _ (minus_not_mem_toDigits _)
      (minus_not_mem_toDigits _) h
    have := toDigits_injective _ _ hd
    exact ⟨by omega, hr⟩
  · simp only [ha, hb, if_true, if_false, List.cons_append] at h
    exfalso
    cases hd : Nat.toDigits 10 b.toNat with
    | nil => exact toDigits_ne_nil _ hd
    | cons c l =>
      rw [hd] at h
      simp only [List.cons_append, List.cons.injEq] at h
      exact minus_not_mem_toDigits b.toNat (by rw [hd, ← h.1]; exact List.mem_cons_self _ _)
  · simp only [ha, hb, if_true, if_false, List.cons_append] at h
    exfalso
    cases hd : Nat.toDigits 10 a.toNat with
    | nil => exact toDigits_ne_nil _ hd
    | cons c l =>
      rw [hd] at h
      simp only [List.cons_append, List.cons.injEq] at h
      exact minus_not_mem_toDigits a.toNat (by rw [hd, h.1]; exact List.mem_cons_self _ _)
  · simp only [ha, hb, if_false] at h
    obtain ⟨hd, hr⟩ := append_cons_inj_of_not_mem _ _ _ _ (minus_not_mem_toDigits _)
      (minus_not_mem_toDigits _) h
    have := toDigits_injective _ _ hd
    exact ⟨by omega, hr⟩

theorem objectKey_data (iteration idx : Int) (suffix : List Char) :
    (objectKey iteration idx (String.mk suffix)).data =
      "test-bigfile-".data ++ ((formatD iteration).data ++ '-'
        :: ((formatD idx).data ++ '-' :: (suffix ++ ".bin".data))) := by
  simp only [objectKey, String.data_append, List.append_assoc]
  rfl

/-- The object key determines the iteration, the task index and the suffix, for suffixes
of one fixed length. -/
theorem objectKey_inj (I I' i i' : Int) (s s' : List Char) (hlen : s.length = s'.length)
    (h : objectKey I i (String.mk s) = objectKey I' i' (String.mk s')) :
    I = I' ∧ i = i' ∧ s = s' := by
  have hd := congrArg String.data h
  rw [objectKey_data, objectKey_data] at hd
  have h1 := List.append_cancel_left hd
  obtain ⟨hI, h2⟩ := formatD_sep _ _ _ _ h1
  obtain ⟨hi, h3⟩ := formatD_sep _ _ _ _ h2
  exact ⟨hI, hi, (List.append_inj h3 hlen).1⟩

theorem letterAt_mem (num : Fin 36) : letterAt num ∈ letters := List.get_mem _ _ _

theorem MultipartMasCopy.randSuffix_spec {σ : Type} (env : World σ) (n : Nat) :
    ∀ w : σ, (MultipartMasCopy.randSuffix env n w).1.length = n
      ∧ ∀ c ∈ (MultipartMasCopy.randSuffix env n w).1, c ∈ letters := by
  induction n with
  | zero => intro w; simp [MultipartMasCopy.randSuffix]
  | succ n ih =>
    intro w
    obtain ⟨h1, h2⟩ := ih (env.RandInt w).2
    refine ⟨by simp [MultipartMasCopy.randSuffix, h1], ?_⟩
    intro c hc
    simp only [MultipartMasCopy.randSuffix, List.mem_cons] at hc
    rcases hc with rfl | hc
    · exact letterAt_mem _
    · exact h2 c hc

theorem MultipartMas.randomString_spec {σ : Type} (env : World σ) (n : Nat) :
    ∀ w : σ, (MultipartMas.randomString env n w).1.length = n
      ∧ ∀ c ∈ (MultipartMas.randomString env n w).1, c ∈ letters := by
  induction n with
  | zero => intro w; simp [MultipartMas.randomString]
  | succ n ih =>
    intro w
    obtain ⟨h1, h2⟩ := ih (env.RandInt w).2
    refine ⟨by simp [MultipartMas.randomString, h1], ?_⟩
    intro c hc
    simp only [MultipartMas.randomString, List.mem_cons] at hc
    rcases hc with rfl | hc
    · exact letterAt_mem _
    · exact h2 c hc

/-- Every store call of a run of `uploadOneFile` (copy) is for the key built from the
iteration, the task index and the random suffix. -/
theorem MultipartMasCopy.uploadOneFile_target {σ : Type} (env : World σ) (w : σ)
    (iteration : Int) (filePath bucket : String) (partSizeMB idx : Int) (fuel : Nat) :
    ∀ e ∈ (MultipartMasCopy.uploadOneFile env w iteration filePath bucket partSizeMB idx
        fuel).trace,
      e.target = none ∨ e.target = some (bucket,
        objectKey iteration idx (String.mk (MultipartMasCopy.randSuffix env 6 w).1)) := by
  have hs := MultipartMasCopy.multipartUpload_shape_copy env
    (MultipartMasCopy.randSuffix env 6 w).2 filePath bucket
    (objectKey iteration idx (String.mk (MultipartMasCopy.randSuffix env 6 w).1)) partSizeMB
    fuel
  refine (hs.delete_after _ ?_).1
  simp only [MultipartMasCopy.uploadOneFile]
  cases hout : (MultipartMasCopy.multipartUpload env (MultipartMasCopy.randSuffix env 6 w).2
    filePath bucket
    (objectKey iteration idx (String.mk (MultipartMasCopy.randSuffix env 6 w).1))
    partSizeMB fuel).outcome with
  | returned err =>
    cases err with
    | none => exact Or.inl ⟨rfl, _, rfl⟩
    | some err => exact Or.inr ⟨by simp, rfl⟩
  | panicked => exact Or.inr ⟨by simp, rfl⟩
  | unfinished => exact Or.inr ⟨by simp, rfl⟩

/-- Every store call of a run of `uploadOneFile` of `multipart_mas.go` is for the key
built from the iteration, the task index and the random suffix. -/
theorem MultipartMas.uploadOneFile_target_mas {σ : Type} (env : World σ) (w : σ)
    (iteration : Int) (filePath bucket : String) (partSizeMB idx : Int) (fuel : Nat) :
    ∀ e ∈ (MultipartMas.uploadOneFile env w iteration filePath bucket partSizeMB idx
        fuel).trace,
      e.target = none ∨ e.target = some (bucket,
        objectKey iteration idx (String.mk (MultipartMas.randomString env 6 w).1)) := by
  have hs := MultipartMas.multipartUpload_shape env
    (MultipartMas.randomString env 6 w).2 filePath bucket
    (objectKey iteration idx (String.mk (MultipartMas.randomString env 6 w).1)) partSizeMB
    fuel
  refine (hs.delete_after _ ?_).1
  simp only [MultipartMas.uploadOneFile]
  cases hout : (MultipartMas.multipartUpload env (MultipartMas.randomString env 6 w).2
    filePath bucket
    (objectKey iteration idx (String.mk (MultipartMas.randomString env 6 w).1))
    partSizeMB fuel).outcome with
  | returned err =>
    cases err with
    | none => exact Or.inl ⟨rfl, _, rfl⟩
    | some err => exact Or.inr ⟨by simp, rfl⟩
  | panicked => exact Or.inr ⟨by simp, rfl⟩
  | unfinished => exact Or.inr ⟨by simp, rfl⟩

/-- C7. The suffix drawn by `randSuffix(6)` (and by `randomString(6)`) has 6 characters,
all from the alphabet of lowercase letters and digits, and every store call of
`uploadOneFile` uses the key `objectKey iteration idx suffix`.  This key is an injective
function of the triple (iteration, task index, 6-character suffix): two keys agree only
if all three components agree.  In particular two tasks of one wave with distinct task
indices get distinct keys for every choice of the two random suffixes. -/
theorem objectKey_injective {σ : Type} (env : World σ) (w w' : σ) (I I' i i' : Int) :
    ((MultipartMasCopy.randSuffix env 6 w).1.length = 6
      ∧ ∀ c ∈ (MultipartMasCopy.randSuffix env 6 w).1, c ∈ letters)
    ∧ ((MultipartMas.randomString env 6 w).1.length = 6
      ∧ ∀ c ∈ (MultipartMas.randomString env 6 w).1, c ∈ letters)
    ∧ (∀ (filePath bucket : String) (partSizeMB : Int) (fuel : Nat),
        (∀ e ∈ (MultipartMasCopy.uploadOneFile env w I filePath bucket partSizeMB i fuel).trace,
          e.target = none ∨ e.target = some (bucket,
            objectKey I i (String.mk (MultipartMasCopy.randSuffix env 6 w).1)))
        ∧ ∀ e ∈ (MultipartMas.uploadOneFile env w I filePath bucket partSizeMB i fuel).trace,
          e.target = none ∨ e.target = some (bucket,
            objectKey I i (String.mk (MultipartMas.randomString env 6 w).1)))
    ∧ (∀ s s' : List Char, s.length = 6 → s'.length = 6 →
        (objectKey I i (String.mk s) = objectKey I' i' (String.mk s')
          ↔ I = I' ∧ i = i' ∧ s = s'))
    ∧ (i ≠ i' →
        objectKey I i (String.mk (MultipartMasCopy.randSuffix env 6 w).1)
          ≠ objectKey I i' (String.mk (MultipartMasCopy.randSuffix env 6 w').1)
        ∧ objectKey I i (String.mk (MultipartMas.randomString env 6 w).1)
          ≠ objectKey I i' (String.mk (MultipartMas.randomString env 6 w').1)) := by
  refine ⟨MultipartMasCopy.randSuffix_spec env 6 w, MultipartMas.randomString_spec env 6 w,
    fun filePath bucket partSizeMB fuel =>
      ⟨MultipartMasCopy.uploadOneFile_target env w I filePath bucket partSizeMB i fuel,
       MultipartMas.uploadOneFile_target_mas env w I filePath bucket partSizeMB i fuel⟩,
    ?_, ?_⟩
  · intro s s' hs hs'
    constructor
    · exact objectKey_inj I I' i i' s s' (by rw [hs, hs'])
    · rintro ⟨rfl, rfl, rfl⟩
      rfl
  · intro hne
    constructor
    · intro h
      exact hne (objectKey_inj I I i i' _ _
        (by rw [(MultipartMasCopy.randSuffix_spec env 6 w).1,
          (MultipartMasCopy.randSuffix_spec env 6 w').1]) h).2.1
    · intro h
      exact hne (objectKey_inj I I i i' _ _
        (by rw [(MultipartMas.randomString_spec env 6 w).1,
          (MultipartMas.randomString_spec env 6 w').1]) h).2.1

/-! ## The table of `explainS3Error` -/

/-- C8. `explainS3Error` is a total function of its argument whose result is the empty
string exactly for the codes that are not (case-sensitively) one of the 17 known codes;
the 17 known codes are pairwise distinct and are mapped, in order, to 17 fixed, non-empty
and pairwise distinct explanations. -/
theorem explainS3Error_empty_iff (code : String) :
    (explainS3Error code = "" ↔ code ∉ knownCodes)
    ∧ knownCodes.length = 17
    ∧ knownCodes.Nodup
    ∧ knownCodes.map explainS3Error = explanations
    ∧ explanations.Nodup
    ∧ (∀ e ∈ explanations, e ≠ "")
    ∧ explainS3Error "nosuchbucket" = "" := by
  refine ⟨?_, rfl, by decide, by decide, by decide, by decide, by decide⟩
  unfold explainS3Error knownCodes
  simp only [List.mem_cons, List.mem_singleton, List.not_mem_nil, or_false, not_or]
  constructor
  · intro h
    repeat' constructor
    all_goals
      intro hc
      subst hc
      revert h
      decide
  · intro h
    simp only [h, if_false]

/-! ## The outcome of a transfer task -/

/-- An upload phase that returns without error has created a session and has seen no
`UploadPart` call fail. -/
theorem UploadShape.of_returned_none {pol : LoopPolicy} {filePath bucket key : String}
    {tr : List Event}
    (h : UploadShape pol filePath bucket key (.returned none) tr) :
    (∃ uploadID, Event.CreateMultipartUpload bucket key (.ok uploadID) ∈ tr)
    ∧ (∀ e ∈ tr, isFailedUploadPart e = false) := by
  constructor
  · cases h with
    | complete uploadID _ _ _ _ =>
      exact ⟨uploadID, List.mem_cons_of_mem _ (List.mem_cons_self _ _)⟩
  · intro e he
    cases hf : isFailedUploadPart e with
    | false => rfl
    | true =>
      obtain ⟨_, _, _, _, _, _, _, h3, _⟩ := h.of_failed_part ⟨e, he, hf⟩
      simp at h3

/-- C9. For every run of `uploadOneFile` of `multipart_mas copy.go` (any world), with
`up` the run of its upload phase: it returns no error if and only if initiate, every
`UploadPart` call, complete and delete all succeeded; when the upload phase returns an
error it returns that error and issues no further call; when the upload succeeds and
`DeleteObject` fails it returns the delete error, and that failed delete is the last call
of the run and its only delete. -/
theorem uploadOneFile_outcome {σ : Type} (env : World σ) (w : σ) (iteration : Int)
    (filePath bucket : String) (partSizeMB idx : Int) (fuel : Nat)
    (key : String) (up run : Run σ)
    (hkey : key = objectKey iteration idx (String.mk (MultipartMasCopy.randSuffix env 6 w).1))
    (hup : up = MultipartMasCopy.multipartUpload env (MultipartMasCopy.randSuffix env 6 w).2
      filePath bucket key partSizeMB fuel)
    (hrun : run = MultipartMasCopy.uploadOneFile env w iteration filePath bucket partSizeMB idx
      fuel) :
    (run.outcome = .returned none ↔
      (∃ uploadID, Event.CreateMultipartUpload bucket key (.ok uploadID) ∈ run.trace)
      ∧ (∀ e ∈ run.trace, isFailedUploadPart e = false)
      ∧ (∃ e ∈ run.trace, isCompleteOk e = true)
      ∧ Event.DeleteObject bucket key none ∈ run.trace)
    ∧ (∀ err, up.outcome = .returned (some err) →
        run.outcome = .returned (some err) ∧ run.trace = up.trace)
    ∧ (∀ err, Event.DeleteObject bucket key (some err) ∈ run.trace →
        up.outcome = .returned none
        ∧ run.outcome = .returned (some err)
        ∧ run.trace = up.trace ++ [.DeleteObject bucket key (some err)]
        ∧ up.trace.filter isDelete = []) := by
  subst hkey
  have hs := MultipartMasCopy.multipartUpload_shape_copy env
    (MultipartMasCopy.randSuffix env 6 w).2 filePath bucket
    (objectKey iteration idx (String.mk (MultipartMasCopy.randSuffix env 6 w).1)) partSizeMB
    fuel
  rw [← hup] at hs
  have hnd := hs.filter_isDelete
  have hnodel : ∀ res, Event.DeleteObject bucket
      (objectKey iteration idx (String.mk (MultipartMasCopy.randSuffix env 6 w).1)) res
        ∉ up.trace := by
    intro res hmem
    have : Event.DeleteObject bucket
        (objectKey iteration idx (String.mk (MultipartMasCopy.randSuffix env 6 w).1)) res
          ∈ up.trace.filter isDelete := List.mem_filter.mpr ⟨hmem, rfl⟩
    rw [hnd] at this
    simp at this
  have hrun' : run = match up.outcome with
      | .returned none =>
        { outcome := .returned (env.DeleteObject up.world bucket
            (objectKey iteration idx (String.mk (MultipartMasCopy.randSuffix env 6 w).1))).1
          trace := up.trace ++ [.DeleteObject bucket
            (objectKey iteration idx (String.mk (MultipartMasCopy.randSuffix env 6 w).1))
            (env.DeleteObject up.world bucket
              (objectKey iteration idx
                (String.mk (MultipartMasCopy.randSuffix env 6 w).1))).1]
          world := (env.DeleteObject up.world bucket
            (objectKey iteration idx (String.mk (MultipartMasCopy.randSuffix env 6 w).1))).2 }
      | .returned (some err) =>
        { outcome := .returned (some err), trace := up.trace, world := up.world }
      | .panicked => up
      | .unfinished => up := by
    rw [hrun, hup]
    rfl
  cases hout : up.outcome with
  | returned oerr =>
    cases oerr with
    | none =>
      rw [hout] at hrun' hs
      simp only [] at hrun'
      obtain ⟨hcreate, hnofail⟩ := hs.of_returned_none
      obtain ⟨c, hc, hcok⟩ := hs.returned_none_iff.mp rfl
      subst hrun'
      refine ⟨?_, ?_, ?_⟩
      · constructor
        · intro h
          simp only [Outcome.returned.injEq] at h
          obtain ⟨uploadID, hu⟩ := hcreate
          refine ⟨⟨uploadID, List.mem_append_left _ hu⟩, ?_, ⟨c, List.mem_append_left _ hc, hcok⟩,
            ?_⟩
          · intro e he
            simp only [List.mem_append, List.mem_singleton] at he
            rcases he with he | rfl
            · exact hnofail e he
            · rfl
          · rw [h]
            exact List.mem_append_right _ (List.mem_singleton_self _)
        · rintro ⟨_, _, _, hdel⟩
          simp only [List.mem_append, List.mem_singleton, Event.DeleteObject.injEq, true_and]
            at hdel
          rcases hdel with hdel | hdel
          · exact absurd hdel (hnodel none)
          · simp only [← hdel]
      · intro err h
        simp at h
      · intro err hdel
        simp only [List.mem_append, List.mem_singleton, Event.DeleteObject.injEq, true_and]
          at hdel
        rcases hdel with hdel | hdel
        · exact absurd hdel (hnodel (some err))
        · rw [← hdel]
          exact ⟨rfl, rfl, rfl, hnd⟩
    | some oerr =>
      rw [hout] at hrun'
      simp only [] at hrun'
      subst hrun'
      refine ⟨?_, ?_, ?_⟩
      · constructor
        · intro h
          simp at h
        · rintro ⟨_, _, _, hdel⟩
          exact absurd hdel (hnodel none)
      · intro err h
        simp only [Outcome.returned.injEq, Option.some.injEq] at h
        subst h
        exact ⟨rfl, rfl⟩
      · intro err hdel
        exact absurd hdel (hnodel (some err))
  | panicked =>
    rw [hout] at hrun'
    simp only [] at hrun'
    subst hrun'
    refine ⟨?_, ?_, ?_⟩
    · constructor
      · intro h
        rw [hout] at h
        simp at h
      · rintro ⟨_, _, _, hdel⟩
        exact absurd hdel (hnodel none)
    · intro err h
      simp at h
    · intro err hdel
      exact absurd hdel (hnodel (some err))
  | unfinished =>
    rw [hout] at hrun'
    simp only [] at hrun'
    subst hrun'
    refine ⟨?_, ?_, ?_⟩
    · constructor
      · intro h
        rw [hout] at h
        simp at h
      · rintro ⟨_, _, _, hdel⟩
        exact absurd hdel (hnodel none)
    · intro err h
      simp at h
    · intro err hdel
      exact absurd hdel (hnodel (some err))

theorem scripted_Delete (w : Script) (bucket key : String) :
    scripted.DeleteObject w bucket key = (w.delete, w) := rfl

theorem MultipartMasCopy.randSuffix_deleteFails :
    MultipartMasCopy.randSuffix scripted 6 deleteFails = ("aaaaaa".toList, deleteFails) := rfl

theorem MultipartMasCopy.multipartUpload_deleteFails (filePath bucket key : String)
    (partSizeMB : Int) (fuel : Nat) (hP : 0 < partSizeBytes partSizeMB) (hmax : partSizeBytes partSizeMB ≤ maxAlloc) :
    MultipartMasCopy.multipartUpload scripted deleteFails filePath bucket key partSizeMB
        (fuel + 1) =
      { outcome := .returned none
        trace := [.Open filePath none, .CreateMultipartUpload bucket key (.ok "id"),
          .Read 0 (some GoError.EOF), .CompleteMultipartUpload bucket key "id" [] none]
        world := deleteFails } := by
  have hB := MultipartMasCopy.uploadLoop_read_zero scripted bucket key "id" fuel deleteFails
    (List.replicate (partSizeBytes partSizeMB).toNat 0) 1 [] rfl
  simp only [scripted_Read] at hB
  have h1 : deleteFails.openErr = none := rfl
  have h2 : deleteFails.create = .ok "id" := rfl
  simp only [MultipartMasCopy.multipartUpload, scripted_Open, scripted_Create,
    MultipartMasCopy.partSize_eq_copy, makeBuf_of_pos _ hP hmax, h1, h2, hB, completeUpload,
    scripted_Complete]
  rfl

theorem MultipartMasCopy.uploadOneFile_deleteFails (iteration : Int) (filePath bucket : String)
    (partSizeMB idx : Int) (fuel : Nat) (hP : 0 < partSizeBytes partSizeMB) (hmax : partSizeBytes partSizeMB ≤ maxAlloc) :
    MultipartMasCopy.uploadOneFile scripted deleteFails iteration filePath bucket partSizeMB idx
        (fuel + 1) =
      { outcome := .returned (some (.api "AccessDenied" "delete not allowed"))
        trace := [.Open filePath none,
          .CreateMultipartUpload bucket (objectKey iteration idx "aaaaaa") (.ok "id"),
          .Read 0 (some GoError.EOF),
          .CompleteMultipartUpload bucket (objectKey iteration idx "aaaaaa") "id" [] none,
          .DeleteObject bucket (objectKey iteration idx "aaaaaa")
            (some (.api "AccessDenied" "delete not allowed"))]
        world := deleteFails } := by
  simp only [MultipartMasCopy.uploadOneFile, MultipartMasCopy.randSuffix_deleteFails,
    MultipartMasCopy.multipartUpload_deleteFails filePath bucket _ partSizeMB fuel hP hmax,
    scripted_Delete]
  rfl

/-- C9 witness: when the upload of task 1 of wave 1 succeeds and `DeleteObject` fails,
`uploadOneFile` returns the delete error and the failed delete is its last call. -/
theorem uploadOneFile_outcome_witness :
    Event.DeleteObject "bucket" "test-bigfile-1-1-aaaaaa.bin"
        (some (.api "AccessDenied" "delete not allowed"))
      ∈ (MultipartMasCopy.uploadOneFile scripted deleteFails 1 "test-bigfile.bin" "bucket" 20 1
          1).trace
    ∧ (MultipartMasCopy.uploadOneFile scripted deleteFails 1 "test-bigfile.bin" "bucket" 20 1
        1).outcome = .returned (some (.api "AccessDenied" "delete not allowed"))
    ∧ (MultipartMasCopy.uploadOneFile scripted deleteFails 1 "test-bigfile.bin" "bucket" 20 1
        1).trace
      = (MultipartMasCopy.multipartUpload scripted
          (MultipartMasCopy.randSuffix scripted 6 deleteFails).2 "test-bigfile.bin" "bucket"
          "test-bigfile-1-1-aaaaaa.bin" 20 1).trace
        ++ [.DeleteObject "bucket" "test-bigfile-1-1-aaaaaa.bin"
            (some (.api "AccessDenied" "delete not allowed"))] := by
  have hP : (0 : Int) < partSizeBytes 20 := by rw [partSizeBytes_20]; decide
  have hmax : partSizeBytes 20 ≤ maxAlloc := by rw [partSizeBytes_20]; decide
  have hmem : Event.DeleteObject "bucket" "test-bigfile-1-1-aaaaaa.bin"
      (some (.api "AccessDenied" "delete not allowed"))
      ∈ (MultipartMasCopy.uploadOneFile scripted deleteFails 1 "test-bigfile.bin" "bucket" 20
          1 1).trace := by
    rw [MultipartMasCopy.uploadOneFile_deleteFails 1 "test-bigfile.bin" "bucket" 20 1 0 hP hmax]
    decide
  have h := (uploadOneFile_outcome scripted deleteFails 1 "test-bigfile.bin" "bucket" 20 1 1
    "test-bigfile-1-1-aaaaaa.bin" _ _ (by decide) rfl rfl).2.2 _ hmem
  exact ⟨hmem, h.2.1, h.2.2.1⟩

/-! ## Read errors in `multipart_mas copy.go` -/

/-- In `multipart_mas copy.go`, a read that stores at least one byte and fails with an
error other than `io.EOF` ends the loop with that error. -/
theorem loop_read_error_copy {bucket key uploadID : String}
    {partNumber : Int} {completedParts : List CompletedPart} {exit : LoopExit}
    {tr : List Event}
    (h : LoopShape MultipartMasCopy.policy bucket key uploadID partNumber completedParts exit
      tr)
    (n : Nat) (err : GoError) (hmem : Event.Read n (some err) ∈ tr) (hne : err ≠ GoError.EOF)
    (hn : n ≠ 0) :
    exit = .ret err := by
  induction h with
  | unfinished => simp at hmem
  | stop _ _ m e hstop =>
    simp only [List.mem_singleton, Event.Read.injEq] at hmem
    obtain ⟨rfl, rfl⟩ := hmem
    rcases hstop with h | h
    · exact absurd h hn
    · simp only [Option.some.injEq] at h
      exact absurd h hne
  | readFail _ _ m e _ =>
    simp only [List.mem_singleton, Event.Read.injEq, Option.some.injEq] at hmem
    rw [hmem.2]
  | uploadFail _ _ m rerr _ _ _ hgo =>
    simp only [List.mem_cons, Event.Read.injEq, reduceCtorEq, List.mem_singleton,
      List.not_mem_nil, or_false] at hmem
    obtain ⟨_, rfl⟩ := hmem
    have := hgo.2
    simp at this
  | round _ _ m rerr _ _ _ _ hgo _ _ ih =>
    simp only [List.mem_cons, Event.Read.injEq, reduceCtorEq, false_or] at hmem
    rcases hmem with ⟨_, rfl⟩ | hmem
    · have := hgo.2
      simp at this
    · exact ih hmem

/-- In every run of `multipartUpload` of `multipart_mas copy.go` (any world) in which a
read stores at least one byte and fails with an error other than `io.EOF`, the function
returns that error and issues no `CompleteMultipartUpload` call. -/
theorem MultipartMasCopy.multipartUpload_read_error_copy {σ : Type} (env : World σ) (w : σ)
    (filePath bucket key : String) (partSizeMB : Int) (fuel : Nat)
    (n : Nat) (err : GoError)
    (hmem : Event.Read n (some err)
      ∈ (MultipartMasCopy.multipartUpload env w filePath bucket key partSizeMB fuel).trace)
    (hne : err ≠ GoError.EOF) (hn : n ≠ 0) :
    (MultipartMasCopy.multipartUpload env w filePath bucket key partSizeMB fuel).outcome
      = .returned (some err)
    ∧ (MultipartMasCopy.multipartUpload env w filePath bucket key partSizeMB fuel).trace.filter
        isComplete = [] := by
  have hs := MultipartMasCopy.multipartUpload_shape_copy env w filePath bucket key partSizeMB
    fuel
  revert hmem
  generalize (MultipartMasCopy.multipartUpload env w filePath bucket key partSizeMB
    fuel).outcome = outcome at hs ⊢
  generalize (MultipartMasCopy.multipartUpload env w filePath bucket key partSizeMB
    fuel).trace = tr at hs ⊢
  intro hmem
  cases hs with
  | openFail => simp at hmem
  | createFail => simp at hmem
  | panicked => simp at hmem
  | unfinished _ tr hl =>
    simp only [List.mem_cons, reduceCtorEq, false_or] at hmem
    have := loop_read_error_copy hl n err hmem hne hn
    simp at this
  | loopFail _ e tr hl =>
    simp only [List.mem_cons, reduceCtorEq, false_or] at hmem
    have := loop_read_error_copy hl n err hmem hne hn
    simp only [LoopExit.ret.injEq] at this
    subst this
    exact ⟨rfl, by simp [List.filter_cons, isComplete, hl.filter_isComplete]⟩
  | complete _ _ tr _ hl =>
    simp only [List.mem_cons, reduceCtorEq, false_or, List.mem_append, List.mem_singleton,
      List.not_mem_nil, or_false] at hmem
    have := loop_read_error_copy hl n err hmem hne hn
    simp at this

/-! ## When the session is aborted -/

theorem LoopShape.abort_iff_failed_part {pol : LoopPolicy} {bucket key uploadID : String}
    {partNumber : Int} {completedParts : List CompletedPart} {exit : LoopExit}
    {tr : List Event}
    (h : LoopShape pol bucket key uploadID partNumber completedParts exit tr) :
    (∃ e ∈ tr, isAbort e = true) ↔ (∃ e ∈ tr, isFailedUploadPart e = true) := by
  induction h with
  | unfinished => simp
  | stop => simp [isAbort, isFailedUploadPart]
  | readFail => simp [isAbort, isFailedUploadPart]
  | uploadFail => simp [isAbort, isFailedUploadPart]
  | round _ _ _ _ _ _ _ _ _ _ _ ih =>
    simp only [List.mem_cons, exists_eq_or_imp, isAbort, isFailedUploadPart, Bool.false_eq_true,
      false_or]
    exact ih

/-- In every run of `multipartUpload` (either variant, any world), an
`AbortMultipartUpload` call is issued if and only if an `UploadPart` call failed: no
other failure is followed by an abort. -/
theorem multipartUpload_abort_iff_failed_part {σ : Type} (env : World σ) (w : σ)
    (filePath bucket key : String) (partSizeMB : Int) (fuel : Nat) (run : Run σ)
    (hrun : run = MultipartMas.multipartUpload env w filePath bucket key partSizeMB fuel
      ∨ run = MultipartMasCopy.multipartUpload env w filePath bucket key partSizeMB fuel) :
    (∃ e ∈ run.trace, isAbort e = true) ↔ (∃ e ∈ run.trace, isFailedUploadPart e = true) := by
  have hshape : ∃ pol, UploadShape pol filePath bucket key run.outcome run.trace := by
    rcases hrun with h | h
    · exact ⟨_, h ▸ MultipartMas.multipartUpload_shape env w filePath bucket key partSizeMB fuel⟩
    · exact ⟨_, h ▸ MultipartMasCopy.multipartUpload_shape_copy env w filePath bucket key
        partSizeMB fuel⟩
  obtain ⟨pol, hs⟩ := hshape
  revert hs
  generalize run.outcome = outcome
  generalize run.trace = tr
  intro hs
  cases hs with
  | openFail => simp [isAbort, isFailedUploadPart]
  | createFail => simp [isAbort, isFailedUploadPart]
  | panicked => simp [isAbort, isFailedUploadPart]
  | unfinished _ _ hl =>
    simp only [List.mem_cons, exists_eq_or_imp, isAbort, isFailedUploadPart, Bool.false_eq_true,
      false_or]
    exact hl.abort_iff_failed_part
  | loopFail _ _ _ hl =>
    simp only [List.mem_cons, exists_eq_or_imp, isAbort, isFailedUploadPart, Bool.false_eq_true,
      false_or]
    exact hl.abort_iff_failed_part
  | complete _ _ tr _ hl =>
    have key := hl.abort_iff_failed_part
    constructor
    · rintro ⟨e, he, h⟩
      simp only [List.mem_cons, List.mem_append, List.mem_singleton, List.not_mem_nil,
        or_false] at he
      rcases he with rfl | rfl | he | rfl
      · simp [isAbort] at h
      · simp [isAbort] at h
      · obtain ⟨e', he', h'⟩ := key.mp ⟨e, he, h⟩
        exact ⟨e', List.mem_cons_of_mem _ (List.mem_cons_of_mem _ (List.mem_append_left _ he')),
          h'⟩
      · simp [isAbort] at h
    · rintro ⟨e, he, h⟩
      simp only [List.mem_cons, List.mem_append, List.mem_singleton, List.not_mem_nil,
        or_false] at he
      rcases he with rfl | rfl | he | rfl
      · simp [isFailedUploadPart] at h
      · simp [isFailedUploadPart] at h
      · obtain ⟨e', he', h'⟩ := key.mpr ⟨e, he, h⟩
        exact ⟨e', List.mem_cons_of_mem _ (List.mem_cons_of_mem _ (List.mem_append_left _ he')),
          h'⟩
      · simp [isFailedUploadPart] at h

/-! ## The object assembled from the parts -/

theorem map_snd_uploadParts (tr : List Event) :
    (uploadParts tr).map Prod.snd = uploadBodies tr := by
  induction tr with
  | nil => rfl
  | cons e tr ih =>
    cases e <;> simp_all [uploadParts, uploadBodies, List.filterMap_cons]

/-- On a regular file, the bodies of the rounds are the source, cut at the part size. -/
theorem flatten_uploadBodies_fileRounds (bucket key uploadID : String)
    (respond : Int → List Byte → Except GoError String) (P : Nat) (hP : 0 < P) :
    ∀ (n : Nat) (data : List Byte) (partNumber : Int), ceilDiv data.length P = n →
      (uploadBodies (fileRounds bucket key uploadID respond P n data partNumber)).flatten
        = data := by
  intro n
  induction n with
  | zero =>
    intro data partNumber h
    have := fileRest_ceilDiv P hP 0 data h
    rw [fileRest] at this
    subst this
    rfl
  | succ n ih =>
    intro data partNumber h
    have hS : 0 < data.length := ceilDiv_pos _ _ n hP (by omega)
    rw [ceilDiv_step _ _ hP hS] at h
    have hn : ceilDiv (data.drop P).length P = n := by rw [List.length_drop]; omega
    rw [fileRounds]
    simp only [uploadBodies, List.filterMap_cons]
    rw [← uploadBodies, List.flatten_cons, ih (data.drop P) (partNumber + 1) hn,
      List.take_append_drop]

theorem insertPart_of_le (p : Int × List Byte) (l : List (Int × List Byte))
    (h : ∀ q ∈ l, p.1 ≤ q.1) : insertPart p l = p :: l := by
  cases l with
  | nil => rfl
  | cons q l =>
    rw [insertPart, if_pos (h q (List.mem_cons_self _ _))]

/-- A list of parts whose part numbers ascend is in part-number order. -/
theorem inPartNumberOrder_of_pairwise (l : List (Int × List Byte))
    (h : l.Pairwise fun a b => a.1 ≤ b.1) : inPartNumberOrder l = l := by
  induction l with
  | nil => rfl
  | cons p l ih =>
    rw [List.pairwise_cons] at h
    rw [inPartNumberOrder, ih h.2, insertPart_of_le p l h.1]

/-- A part with a part number below all others, uploaded last, comes first in
part-number order. -/
theorem inPartNumberOrder_append_min (m : Int × List Byte) :
    ∀ l : List (Int × List Byte), (l.Pairwise fun a b => a.1 ≤ b.1) →
      (∀ q ∈ l, m.1 < q.1) → inPartNumberOrder (l ++ [m]) = m :: l := by
  intro l
  induction l with
  | nil => intro _ _; rfl
  | cons p l ih =>
    intro hp hm
    rw [List.pairwise_cons] at hp
    have hlt := hm p (List.mem_cons_self _ _)
    rw [List.cons_append, inPartNumberOrder,
      ih hp.2 (fun q hq => hm q (List.mem_cons_of_mem _ hq)), insertPart,
      if_neg (by omega), insertPart_of_le p l hp.1]

theorem uploadParts_fileRounds_succ (bucket key uploadID : String)
    (respond : Int → List Byte → Except GoError String) (P n : Nat) (data : List Byte)
    (partNumber : Int) :
    uploadParts (fileRounds bucket key uploadID respond P (n + 1) data partNumber) =
      (int32 partNumber, data.take P)
        :: uploadParts (fileRounds bucket key uploadID respond P n (data.drop P)
            (partNumber + 1)) := by
  rw [fileRounds]
  simp only [uploadParts, List.filterMap_cons]

/-- The part numbers of the rounds, while they fit an `int32`. -/
theorem uploadParts_fileRounds_bounds (bucket key uploadID : String)
    (respond : Int → List Byte → Except GoError String) (P : Nat) :
    ∀ (n : Nat) (data : List Byte) (partNumber : Int),
      -2147483648 ≤ partNumber → partNumber + n ≤ 2147483648 →
      ∀ q ∈ uploadParts (fileRounds bucket key uploadID respond P n data partNumber),
        partNumber ≤ q.1 ∧ q.1 < partNumber + n := by
  intro n
  induction n with
  | zero => intro _ _ _ _ q hq; simp [fileRounds, uploadParts] at hq
  | succ n ih =>
    intro data partNumber h0 h1 q hq
    rw [uploadParts_fileRounds_succ, List.mem_cons] at hq
    push_cast at h1 ⊢
    rcases hq with rfl | hq
    · simp only
      rw [int32_of_lt _ h0 (by omega)]
      omega
    · have := ih (data.drop P) (partNumber + 1) (by omega) (by omega) q hq
      omega

/-- The part numbers of the rounds ascend, while they fit an `int32`. -/
theorem uploadParts_fileRounds_pairwise (bucket key uploadID : String)
    (respond : Int → List Byte → Except GoError String) (P : Nat) :
    ∀ (n : Nat) (data : List Byte) (partNumber : Int),
      -2147483648 ≤ partNumber → partNumber + n ≤ 2147483648 →
      (uploadParts (fileRounds bucket key uploadID respond P n data partNumber)).Pairwise
        fun a b => a.1 ≤ b.1 := by
  intro n
  induction n with
  | zero => intro _ _ _ _; simp [fileRounds, uploadParts]
  | succ n ih =>
    intro data partNumber h0 h1
    rw [uploadParts_fileRounds_succ, List.pairwise_cons]
    push_cast at h1
    refine ⟨?_, ih (data.drop P) (partNumber + 1) (by omega) (by omega)⟩
    intro q hq
    have := uploadParts_fileRounds_bounds bucket key uploadID respond P n (data.drop P)
      (partNumber + 1) (by omega) (by omega) q hq
    simp only
    rw [int32_of_lt _ h0 (by omega)]
    omega

theorem uploadParts_run (filePath bucket key uid : String) (tr : List Event)
    (parts : List CompletedPart) (e1 e2 e3 : Option GoError) (r : Except GoError String) :
    uploadParts (.Open filePath e1 :: .CreateMultipartUpload bucket key r
      :: (tr ++ [.Read 0 e2, .CompleteMultipartUpload bucket key uid parts e3])) =
      uploadParts tr := by
  simp [uploadParts, List.filterMap_cons, List.filterMap_append]

/-- C11 (as amended). On a regular file with the bytes `data` and a part size `P > 0`,
when every read and every store call succeeds, both variants of `multipartUpload` make
the same run; the concatenation of the bodies passed to `UploadPart`, in the order of the
calls, is `data` exactly, although one buffer is reused for all parts; and when
`ceil(S/P) < 2^31` the order of the calls is the part-number order, so that the
concatenation in part-number order is `data` as well. -/
theorem multipartUpload_bodies_concat (uid : String) (etag : Int → List Byte → String)
    (data : List Byte) (filePath bucket key : String) (partSizeMB : Int) (fuel : Nat)
    (hP : 0 < partSizeBytes partSizeMB) (hmax : partSizeBytes partSizeMB ≤ maxAlloc)
    (hfuel : ceilDiv data.length (partSizeBytes partSizeMB).toNat < fuel)
    (run : Run (List Byte))
    (hrun : run = MultipartMas.multipartUpload (fileWorld uid (accept etag)) data filePath
        bucket key partSizeMB fuel
      ∨ run = MultipartMasCopy.multipartUpload (fileWorld uid (accept etag)) data filePath
        bucket key partSizeMB fuel) :
    run.outcome = .returned none
    ∧ (uploadBodies run.trace).flatten = data
    ∧ (ceilDiv data.length (partSizeBytes partSizeMB).toNat < 2147483648 →
        assembled run.trace = data)
    ∧ MultipartMas.multipartUpload (fileWorld uid (accept etag)) data filePath bucket key
        partSizeMB fuel
      = MultipartMasCopy.multipartUpload (fileWorld uid (accept etag)) data filePath bucket key
        partSizeMB fuel := by
  have hP' : 0 < (partSizeBytes partSizeMB).toNat := by omega
  have hA := MultipartMas.multipartUpload_fileWorld uid _ data filePath bucket key partSizeMB
    fuel hP hmax hfuel (fileAccepts_accept etag _ _ _ _)
  have hB := MultipartMasCopy.multipartUpload_fileWorld_copy uid _ data filePath bucket key
    partSizeMB fuel hP hmax hfuel (fileAccepts_accept etag _ _ _ _)
  have hrun' : run = MultipartMas.multipartUpload (fileWorld uid (accept etag)) data filePath
      bucket key partSizeMB fuel := by
    rcases hrun with h | h
    · exact h
    · rw [h, hA, hB]
  have hflat := flatten_uploadBodies_fileRounds bucket key uid (accept etag) _ hP' _ data 1 rfl
  refine ⟨?_, ?_, ?_, by rw [hA, hB]⟩
  · rw [hrun', hA]
  · rw [hrun', hA]
    simp only [uploadBodies_run]
    exact hflat
  · intro hn
    rw [hrun', hA]
    simp only [assembled, uploadParts_run]
    rw [inPartNumberOrder_of_pairwise _
      (uploadParts_fileRounds_pairwise bucket key uid (accept etag) _ _ data 1 (by omega)
        (by omega)), map_snd_uploadParts]
    exact hflat

/-- A source of 45 MB: 20 MB of ones, 20 MB of twos and 5 MB of threes. -/
theorem length_source45 :
    (List.replicate 20971520 (1 : Byte) ++ List.replicate 20971520 2
      ++ List.replicate 5242880 3).length = 47185920 := by
  rw [List.length_append, List.length_append, List.length_replicate, List.length_replicate,
    List.length_replicate]

/-- C11 witness: the three parts of a source of 45 MB (20 MB of ones, 20 MB of twos, 5 MB
of threes), uploaded with parts of 20 MB, concatenate to the source. -/
theorem multipartUpload_bodies_concat_witness :
    assembled (MultipartMas.multipartUpload (fileWorld "id" (accept fun _ _ => "etag"))
      (List.replicate 20971520 1 ++ List.replicate 20971520 2 ++ List.replicate 5242880 3)
      "test-bigfile.bin" "bucket" "key" 20 4).trace
      = List.replicate 20971520 1 ++ List.replicate 20971520 2 ++ List.replicate 5242880 3 := by
  have h3 : (partSizeBytes 20).toNat = 20971520 := by rw [partSizeBytes_20]; rfl
  exact (multipartUpload_bodies_concat "id" (fun _ _ => "etag")
    (List.replicate 20971520 1 ++ List.replicate 20971520 2 ++ List.replicate 5242880 3)
    "test-bigfile.bin" "bucket" "key" 20 4 (by rw [partSizeBytes_20]; decide) (by rw [partSizeBytes_20]; decide)
    (by rw [h3, length_source45, ceilDiv_45_20]; decide) _ (Or.inl rfl)).2.2.1
    (by rw [h3, length_source45, ceilDiv_45_20]; decide)

theorem fileRest_eq_drop (P : Nat) :
    ∀ (n : Nat) (data : List Byte), fileRest P n data = data.drop (n * P) := by
  intro n
  induction n with
  | zero => intro data; simp [fileRest]
  | succ n ih =>
    intro data
    rw [fileRest, ih, List.drop_drop, Nat.succ_mul, Nat.add_comm]

theorem uploadParts_fileRounds_snoc (bucket key uploadID : String)
    (respond : Int → List Byte → Except GoError String) (P : Nat) :
    ∀ (n : Nat) (data : List Byte) (partNumber : Int),
      uploadParts (fileRounds bucket key uploadID respond P (n + 1) data partNumber) =
        uploadParts (fileRounds bucket key uploadID respond P n data partNumber)
          ++ [(int32 (partNumber + n), (fileRest P n data).take P)] := by
  intro n
  induction n with
  | zero =>
    intro data partNumber
    simp [fileRounds, uploadParts, fileRest]
  | succ n ih =>
    intro data partNumber
    rw [uploadParts_fileRounds_succ, ih (data.drop P) (partNumber + 1),
      uploadParts_fileRounds_succ, fileRest, List.cons_append]
    have : partNumber + 1 + (n : Int) = partNumber + ((n + 1 : Nat) : Int) := by
      push_cast; ring
    rw [this]

theorem multipartUpload_assembled_of_length (front back : List Byte)
    (hf : front.length = 2251799812636671) (hb : back.length = 1048575) :
    (MultipartMas.multipartUpload (fileWorld "id" (accept fun _ _ => "etag"))
      ((0 :: front) ++ (1 :: back)) "test-bigfile.bin" "bucket" "key" 1 2147483649).outcome
      = .returned none
    ∧ (assembled (MultipartMas.multipartUpload (fileWorld "id" (accept fun _ _ => "etag"))
        ((0 :: front) ++ (1 :: back)) "test-bigfile.bin" "bucket" "key" 1
        2147483649).trace).head? = some 1 := by
  have hS : ((0 :: front) ++ (1 :: back)).length = 2251799813685248 := by
    rw [List.length_append, List.length_cons, List.length_cons, hf, hb]
  have hP : (partSizeBytes 1).toNat = 1048576 := by rw [partSizeBytes_1]; rfl
  have hn : ceilDiv ((0 :: front) ++ (1 :: back)).length (partSizeBytes 1).toNat
      = 2147483647 + 1 := by
    rw [hS, hP, ceilDiv_2PiB]
  have hrun := MultipartMas.multipartUpload_fileWorld "id" (accept fun _ _ => "etag")
    ((0 :: front) ++ (1 :: back)) "test-bigfile.bin" "bucket" "key" 1 2147483649
    (by rw [partSizeBytes_1]; decide) (by rw [partSizeBytes_1]; decide) (by rw [hn]; decide) (fileAccepts_accept _ _ _ _ _)
  rw [hn, hP] at hrun
  rw [hrun]
  refine ⟨rfl, ?_⟩
  have hlast : (fileRest 1048576 2147483647 ((0 :: front) ++ (1 :: back))).take 1048576
      = 1 :: back.take 1048575 := by
    rw [fileRest_eq_drop, List.drop_left' (by rw [List.length_cons, hf])]
    exact List.take_succ_cons
  have hsorted := inPartNumberOrder_append_min
    (int32 (1 + ((2147483647 : Nat) : Int)), (1 : Byte) :: back.take 1048575)
    (uploadParts (fileRounds "bucket" "key" "id" (accept fun _ _ => "etag") 1048576 2147483647
      ((0 :: front) ++ (1 :: back)) 1))
    (uploadParts_fileRounds_pairwise _ _ _ _ _ _ _ _ (by decide) (by decide))
    (by
      intro q hq
      have := uploadParts_fileRounds_bounds _ _ _ _ _ _ _ _ (by decide) (by decide) q hq
      rw [int32_wrap]
      simp only
      omega)
  simp only [assembled, uploadParts_run]
  rw [uploadParts_fileRounds_snoc, hlast, hsorted]
  simp only [List.map_cons, List.flatten_cons, List.cons_append, List.head?_cons]

/-- C11 (counterexample to the claim as stated). A source of `2^51` bytes, zeros followed
by a last megabyte of ones, is uploaded in `2^31` parts of 1 MB; every read and store call
succeeds.  The last part carries the part number `int32(2147483648) = -2147483648`, so in
part-number order it comes first: the concatenation in part-number order starts with the
byte 1, whereas the source starts with the byte 0. -/
theorem multipartUpload_bodies_concat_wrap :
    (MultipartMas.multipartUpload (fileWorld "id" (accept fun _ _ => "etag"))
      ((0 :: List.replicate 2251799812636671 0) ++ (1 :: List.replicate 1048575 1))
      "test-bigfile.bin" "bucket" "key" 1 2147483649).outcome = .returned none
    ∧ (assembled (MultipartMas.multipartUpload (fileWorld "id" (accept fun _ _ => "etag"))
        ((0 :: List.replicate 2251799812636671 0) ++ (1 :: List.replicate 1048575 1))
        "test-bigfile.bin" "bucket" "key" 1 2147483649).trace).head? = some 1
    ∧ (((0 : Byte) :: List.replicate 2251799812636671 0)
        ++ (1 :: List.replicate 1048575 1)).head? = some 0
    ∧ assembled (MultipartMas.multipartUpload (fileWorld "id" (accept fun _ _ => "etag"))
        ((0 :: List.replicate 2251799812636671 0) ++ (1 :: List.replicate 1048575 1))
        "test-bigfile.bin" "bucket" "key" 1 2147483649).trace
      ≠ (0 :: List.replicate 2251799812636671 0) ++ (1 :: List.replicate 1048575 1) := by
  obtain ⟨h1, h2⟩ := multipartUpload_assembled_of_length (List.replicate 2251799812636671 0)
    (List.replicate 1048575 1) (List.length_replicate _ _) (List.length_replicate _ _)
  have h0 : (((0 : Byte) :: List.replicate 2251799812636671 0)
      ++ (1 :: List.replicate 1048575 1)).head? = some 0 := rfl
  refine ⟨h1, h2, h0, ?_⟩
  intro h
  rw [h, h0] at h2
  exact absurd h2 (by decide)

end Skripts
